import Mathlib

set_option maxRecDepth 16384

/-!
# Verification of the paisa analytical back end

Shallow embedding of the analytical core of a personal-finance ledger
application, together with proofs checking its natural-language
specification against the code.

Monetary values are exact decimals in the source (`decimal.Decimal`,
`BigNumber`); they are embedded as `Rat`, an exact superset closed under
the operations used.  Calendar instants are embedded at the granularity
each component observes: the net-worth timeline walks single days, so its
dates are day indices (`Nat`); the budget engine only ever compares month
granularity, so its dates are month indices (`Nat`); cash flow compares
beginning-of-month instants with posting dates and an end-of-day instant,
so its dates are pairs of a month index and a within-month instant.
Database- and config-dependent services (`IsInterest`, `GetMarketPrice`,
`GetUnitPrice`, `IsCurrency`, ...) are opaque in the code under study and
appear here as context parameters: every theorem quantifies over them.
-/

namespace Paisa

/-! ## Net worth (`computeNetworth`, `computeNetworthTimeline`) -/

namespace Networth

/-- A posting as consumed by the net-worth fold: `Date` (a day index),
`Commodity`, `Amount` (booked cost in default currency), `Quantity`. -/
structure Posting where
  date : Nat
  commodity : String
  amount : Rat
  quantity : Rat
deriving DecidableEq, Repr

/-- The services the net-worth computations consult: per-posting
classification (`service.IsInterest`, `service.IsInterestRepayment`,
`service.IsStockSplit`, `service.IsCapitalGains`), market valuation
(`service.GetMarketPrice`, `service.GetUnitPrice` where a zero price value
means "no price recorded"), and `utils.IsCurrency`.  All are opaque
collaborators of the code under study. -/
structure Ctx where
  isInterest : Posting → Bool
  isInterestRepayment : Posting → Bool
  isStockSplit : Posting → Bool
  isCapitalGains : Posting → Bool
  marketPrice : Posting → Nat → Rat
  unitPrice : String → Nat → Rat
  isCurrency : String → Bool

/-- The per-commodity accumulator `RunningSum` of `computeNetworthTimeline`. -/
structure RunningSum where
  investment : Rat := 0
  withdrawal : Rat := 0
  balance : Rat := 0
  balanceUnits : Rat := 0
deriving DecidableEq, Repr

/-- `accumulator : map[string]RunningSum`, embedded as an association list. -/
def AccMap := List (String × RunningSum)

instance : DecidableEq AccMap := inferInstanceAs (DecidableEq (List (String × RunningSum)))

/-- Reading `accumulator[p.Commodity]`: a Go map read yields the zero
value when the key is absent. -/
def lookupRS (m : AccMap) (k : String) : RunningSum :=
  ((m.find? (fun e => e.1 == k)).map Prod.snd).getD {}

/-- Writing `accumulator[p.Commodity] = rs`: replace the entry in place,
or add one. -/
def insertRS : AccMap → String → RunningSum → AccMap
  | [], k, v => [(k, v)]
  | e :: rest, k, v => if e.1 == k then (k, v) :: rest else e :: insertRS rest k v

/-- The `Networth` record (all JSON fields of the Go struct). -/
structure Record where
  date : Nat
  investmentAmount : Rat
  withdrawalAmount : Rat
  gainAmount : Rat
  balanceAmount : Rat
  balanceUnits : Rat
  netInvestmentAmount : Rat
deriving DecidableEq, Repr

/-- The per-posting update of `computeNetworthTimeline` (lines 112-131 of
the loop body): investment grows on positive non-interest amounts,
withdrawal on negative non-interest amounts, and balance/units grow by
market price/quantity unless the posting is capital gains. -/
def step (ctx : Ctx) (start : Nat) (acc : AccMap) (p : Posting) : AccMap :=
  let rs := lookupRS acc p.commodity
  let isInterest := ctx.isInterest p
  let isCapitalGains := ctx.isCapitalGains p
  let rs := if 0 < p.amount ∧ isInterest = false then
      { rs with investment := rs.investment + p.amount } else rs
  let rs := if p.amount < 0 ∧ isInterest = false then
      { rs with withdrawal := rs.withdrawal + (-p.amount) } else rs
  let rs := if isCapitalGains = false then
      { rs with balance := rs.balance + ctx.marketPrice p start,
                balanceUnits := rs.balanceUnits + p.quantity } else rs
  insertRS acc p.commodity rs

/-- The inner `for` of the daily loop: consume every leading posting with
date at or before `start`, feeding each into `step`.  Returns the updated
accumulator and the remaining postings. -/
def consume (ctx : Ctx) (start : Nat) : List Posting → AccMap → AccMap × List Posting
  | [], acc => (acc, [])
  | p :: rest, acc =>
    if p.date ≤ start then consume ctx start rest (step ctx start acc p)
    else (acc, p :: rest)

/-- The per-day aggregation across commodities (lines 135-158): currency
balances are summed directly; non-currency balances are re-valued at the
day's unit price when one exists, else the accumulated balance is used;
units are collected only when `computeBalanceUnits` is set. -/
def aggregate (ctx : Ctx) (computeBalanceUnits : Bool) (start : Nat) (acc : AccMap) :
    Rat × Rat × Rat × Rat :=
  acc.foldl
    (fun t e =>
      let (inv, wd, bal, units) := t
      let rs := e.2
      let inv := inv + rs.investment
      let wd := wd + rs.withdrawal
      if ctx.isCurrency e.1 then (inv, wd, bal + rs.balance, units)
      else
        let units := if computeBalanceUnits then units + rs.balanceUnits else units
        let price := ctx.unitPrice e.1 start
        if price ≠ 0 then (inv, wd, bal + rs.balanceUnits * price, units)
        else (inv, wd, bal + rs.balance, units))
    (0, 0, 0, 0)

/-- The daily loop of `computeNetworthTimeline`, instrumented: each emitted
record is paired with the postings remaining at the break check.  The
source iterates `start` from the first posting's date while
`start.Before(end)`; the iteration count is therefore `end - start`, which
is taken here as a structural counter (`n = end - start` at every call, so
`0 < n ↔ start < end`).  After emitting a day's record the loop breaks if
no postings remain and the day's aggregated balance magnitude is below
0.01. -/
def go (ctx : Ctx) (flag : Bool) :
    Nat → Nat → List Posting → AccMap → List (Record × List Posting)
  | 0, _, _, _ => []
  | n + 1, start, ps, acc =>
    let s := consume ctx start ps acc
    let a := aggregate ctx flag start s.1
    let record : Record :=
      { date := start
        investmentAmount := a.1
        withdrawalAmount := a.2.1
        gainAmount := a.2.2.1 + a.2.1 - a.1
        balanceAmount := a.2.2.1
        balanceUnits := a.2.2.2
        netInvestmentAmount := a.1 - a.2.1 }
    if s.2 = [] ∧ |a.2.2.1| < 1/100 then [(record, s.2)]
    else (record, s.2) :: go ctx flag n (start + 1) s.2 s.1

/-- `computeNetworthTimeline(db, postings, computeBalanceUnits)`:
empty input yields the empty timeline; otherwise the daily loop runs from
the first posting's date until `end` (end of today). -/
def computeNetworthTimeline (ctx : Ctx) (flag : Bool) (endDate : Nat)
    (ps : List Posting) : List Record :=
  match ps with
  | [] => []
  | p :: _ => (go ctx flag (endDate - p.date) p.date ps []).map Prod.fst

/-- `computeNetworth(db, postings)`: the point-in-time fold.  Interest and
interest-repayment postings add their amount to the balance; capital-gains
postings add their negated amount to the withdrawal; every other posting
adds to investment (positive, non-split) or withdrawal (negative,
non-split) and contributes its market price to the balance. -/
def computeNetworth (ctx : Ctx) (now : Nat) (ps : List Posting) : Record :=
  if ps = [] then ⟨0, 0, 0, 0, 0, 0, 0⟩
  else
    let t := ps.foldl
      (fun (t : Rat × Rat × Rat) p =>
        let (inv, wd, bal) := t
        if ctx.isInterest p = true ∨ ctx.isInterestRepayment p = true then
          (inv, wd, bal + p.amount)
        else if ctx.isCapitalGains p = true then (inv, wd + (-p.amount), bal)
        else
          let inv := if 0 < p.amount ∧ ctx.isStockSplit p = false then inv + p.amount else inv
          let wd := if p.amount < 0 ∧ ctx.isStockSplit p = false then wd + (-p.amount) else wd
          (inv, wd, bal + ctx.marketPrice p now))
      (0, 0, 0)
    { date := now
      investmentAmount := t.1
      withdrawalAmount := t.2.1
      gainAmount := t.2.2 + t.2.1 - t.1
      balanceAmount := t.2.2
      balanceUnits := 0
      netInvestmentAmount := t.1 - t.2.1 }

end Networth

/-- Modelled from the spec: `utils.IsSameOrParent` (internal/utils, not
under src/) — "prefix inclusion/exclusion at colon boundary" (§4.1),
"attributed to the most specific ancestor forecast account (prefix match)"
(§4.6): `account` lies in the subtree rooted at `parent`, i.e. it equals
`parent` or extends it past a colon. -/
def isSameOrParent (account parent : String) : Bool :=
  account == parent || (parent ++ ":").isPrefixOf account

/-! ## Asset breakdown (`ComputeBreakdown`, internal/server/assets/balance.go) -/

namespace Assets

/-- A posting as consumed by `ComputeBreakdown`. -/
structure Posting where
  account : String
  commodity : String
  quantity : Rat
  amount : Rat
deriving DecidableEq, Repr

/-- Opaque collaborators of `ComputeBreakdown`: classification services,
`utils.IsCheckingAccount`, `utils.IsCurrency`, `accounting.CurrentBalance`
and the XIRR solver. -/
structure Ctx where
  isCheckingAccount : String → Bool
  isInterest : Posting → Bool
  isStockSplit : Posting → Bool
  isCapitalGains : Posting → Bool
  isCurrency : String → Bool
  currentBalance : List Posting → Rat
  xirr : List Posting → Rat

/-- The `AssetBreakdown` record. -/
structure AssetBreakdown where
  group : String
  investmentAmount : Rat
  withdrawalAmount : Rat
  marketAmount : Rat
  balanceUnits : Rat
  xirr : Rat
  gainAmount : Rat
  absoluteReturn : Rat
deriving Repr

/-- `ComputeBreakdown(db, ps, leaf, group)`, ported fold by fold.  Note the
`balanceUnits` reduce: on a currency posting the source returns
`decimal.Zero` — the accumulator is reset, not kept. -/
def ComputeBreakdown (ctx : Ctx) (ps : List Posting) (leaf : Bool) (group : String) :
    AssetBreakdown :=
  let investmentAmount := ps.foldl
    (fun acc p =>
      if ctx.isCheckingAccount p.account || ctx.isInterest p || ctx.isStockSplit p
          || ctx.isCapitalGains p || decide (p.amount < 0) then acc
      else acc + p.amount) 0
  let withdrawalAmount := ps.foldl
    (fun acc p =>
      if !ctx.isCapitalGains p
          && (ctx.isCheckingAccount p.account || ctx.isInterest p || ctx.isStockSplit p
              || decide (0 < p.amount)) then acc
      else acc + (-p.amount)) 0
  let psWithoutCapitalGains := ps.filter (fun p => !ctx.isCapitalGains p)
  let marketAmount := ctx.currentBalance psWithoutCapitalGains
  let balanceUnits : Rat :=
    if leaf then
      ps.foldl (fun acc p => if !ctx.isCurrency p.commodity then acc + p.quantity else 0) 0
    else 0
  let xirr := ctx.xirr ps
  let netInvestment := investmentAmount - withdrawalAmount
  let gainAmount := marketAmount - netInvestment
  let absoluteReturn := if investmentAmount = 0 then 0
    else (marketAmount - netInvestment) / investmentAmount
  { group := group
    investmentAmount := investmentAmount
    withdrawalAmount := withdrawalAmount
    marketAmount := marketAmount
    balanceUnits := balanceUnits
    xirr := xirr
    gainAmount := gainAmount
    absoluteReturn := absoluteReturn }

/-- What the specification says `balanceUnits` is: the sum of `p.quantity`
over the group's postings whose commodity is not a currency (spec §4.4.3).
Stated from the spec's words, to be compared with `ComputeBreakdown`. -/
def specBalanceUnits (ctx : Ctx) (ps : List Posting) : Rat :=
  (ps.filter (fun p => !ctx.isCurrency p.commodity)).foldl (fun acc p => acc + p.quantity) 0

end Assets

/-! ## Budget engine (`computeBudet`, internal/server/budget.go) -/

namespace Budget

/-- A posting as consumed by the budget engine.  The engine observes dates
only at month granularity (`GroupByMonth` keys, `BeginningOfMonth` /
`EndOfMonth` loop bounds, comparison of month-parsed dates with the
current month), so `month` is a month index. -/
structure Posting where
  account : String
  month : Nat
  amount : Rat
deriving DecidableEq, Repr

/-- Modelled from the spec: `accounting.CostSum` (not under src/) — the
"Σ amounts" of §4.4.2/§4.6: the sum of the postings' booked amounts. -/
def costSum (ps : List Posting) : Rat := ps.foldl (fun acc p => acc + p.amount) 0

/-- First-occurrence-preserving deduplication (`lo.Uniq`). -/
def uniqFirst (seen : List String) : List String → List String
  | [] => []
  | a :: l => if a ∈ seen then uniqFirst seen l else a :: uniqFirst (a :: seen) l

/-- Insertion of a string into a `≤`-sorted list. -/
def insertStr (a : String) : List String → List String
  | [] => [a]
  | b :: l => if a ≤ b then a :: b :: l else b :: insertStr a l

/-- `sort.Strings`: lexicographic sort, as insertion sort. -/
def sortStrings : List String → List String
  | [] => []
  | a :: l => insertStr a (sortStrings l)

/-- Modelled from the spec: `accounting.GroupByAccount` (not under src/) —
the "ordered-map helpers" of §2: group a posting slice by account. -/
def groupByAccount (ps : List Posting) : List (String × List Posting) :=
  (uniqFirst [] (ps.map (·.account))).map
    (fun a => (a, ps.filter (fun p => p.account == a)))

/-- Association-list lookup with the Go map default (`nil` slice). -/
def lookupGroup (m : List (String × List Posting)) (k : String) : List Posting :=
  (((m.find? (fun e => e.1 == k)).map Prod.snd)).getD []

/-- `popExpenses(forecastAccount, expensesByAccount)`: collect and remove
from the pool every group whose account is the forecast account or lies
under it. -/
def popExpenses (forecastAccount : String) (pool : List (String × List Posting)) :
    List Posting × List (String × List Posting) :=
  (((pool.filter (fun e => isSameOrParent e.1 forecastAccount)).map Prod.snd).flatten,
    pool.filter (fun e => !isSameOrParent e.1 forecastAccount))

/-- The `AccountBudget` record. -/
structure AccountBudget where
  account : String
  forecast : Rat
  actual : Rat
  rollover : Rat
  available : Rat
  month : Nat
  expenses : List Posting
deriving DecidableEq, Repr

/-- The month's `Budget` record. -/
structure MonthBudget where
  month : Nat
  accounts : List AccountBudget
  availableThisMonth : Rat
  endOfMonthBalance : Rat
  forecast : Rat
deriving DecidableEq, Repr

/-- `buildBudget(date, account, balance, forecasts, expenses, past)`, with
the config's `budget.rollover` switch as a parameter.  Without roll-over:
no rollover, and a past month's `available` is zeroed.  With roll-over the
carried balance is used and the past-month zeroing is overridden. -/
def buildBudget (rolloverEnabled : Bool) (month : Nat) (account : String) (balance : Rat)
    (forecasts expenses : List Posting) (past : Bool) : AccountBudget :=
  let forecast := costSum forecasts
  let actual := costSum expenses
  let rollover : Rat := 0
  let available := forecast - actual
  let available := if past then 0 else available
  let rollover := if rolloverEnabled then balance else rollover
  let available := if rolloverEnabled then balance + (forecast - actual) else available
  { account := account
    forecast := forecast
    actual := actual
    rollover := rollover
    available := available
    month := month
    expenses := expenses }

/-- The inner loop of `computeBudet` over the (sorted, deduplicated)
forecast accounts of one month: each account pops its expenses from the
pool, builds its budget, and updates the per-account carried balance to
`max(0, available)`.  `monthHasExpenses` is the `ok` flag of the month's
lookup in the grouped expenses, reused by the source inside the account
loop. -/
def accountsLoop (rolloverEnabled : Bool) (month : Nat) (past : Bool)
    (monthHasExpenses : Bool) (forecastsByAccount : List (String × List Posting)) :
    List String → List (String × List Posting) → (String → Rat) →
      List AccountBudget × (String → Rat)
  | [], _, bal => ([], bal)
  | a :: rest, pool, bal =>
    let fs := lookupGroup forecastsByAccount a
    let popped := popExpenses a pool
    let es := if monthHasExpenses then popped.1 else []
    let budget := buildBudget rolloverEnabled month a (bal a) fs es past
    let bal' := fun x => if x = a then (if 0 < budget.available then budget.available else 0)
      else bal x
    let r := accountsLoop rolloverEnabled month past monthHasExpenses forecastsByAccount
      rest popped.2 bal'
    (budget :: r.1, r.2)

/-- Sum over the month's account budgets of the positive parts
(`utils.SumBy` with the `IsPositive` guard). -/
def sumPos (bs : List AccountBudget) (f : AccountBudget → Rat) : Rat :=
  bs.foldl (fun acc b => acc + (if 0 < f b then f b else 0)) 0

/-- The outer loop of `computeBudet` over the months of the forecast
window, threading the per-account carried balances and the running
"available for budgeting" seed. -/
def monthsLoop (rolloverEnabled : Bool) (nowMonth : Nat) (accounts : List String)
    (forecastPostings expensesPostings : List Posting) :
    List Nat → (String → Rat) → Rat → List (Nat × MonthBudget)
  | [], _, _ => []
  | m :: rest, bal, avail =>
    let fsM := forecastPostings.filter (fun p => p.month == m)
    let esM := expensesPostings.filter (fun p => p.month == m)
    let r := accountsLoop rolloverEnabled m (decide (m < nowMonth)) (!esM.isEmpty)
      (groupByAccount fsM) accounts (groupByAccount esM) bal
    let availableThisMonth := sumPos r.1 (·.available)
    let forecastTotal := sumPos r.1 (·.forecast)
    let avail' := avail - availableThisMonth
    (m, { month := m
          accounts := r.1
          availableThisMonth := availableThisMonth
          endOfMonthBalance := avail'
          forecast := forecastTotal }) ::
      monthsLoop rolloverEnabled nowMonth accounts forecastPostings expensesPostings
        rest r.2 avail'

/-- The sorted, deduplicated accounts appearing in forecast postings. -/
def accountsOf (forecastPostings : List Posting) : List String :=
  sortStrings (uniqFirst [] (forecastPostings.map (·.account)))

/-- The month window: from the first forecast posting's month through the
last one's, inclusive (`BeginningOfMonth(first.Date)` to
`EndOfMonth(last.Date)`, stepping one month). -/
def monthsWindow (forecastPostings : List Posting) : List Nat :=
  match forecastPostings.head?, forecastPostings.getLast? with
  | some p0, some p1 => List.range' p0.month (p1.month + 1 - p0.month)
  | _, _ => []

/-- `computeBudet(db, forecastPostings, expensesPostings)`: the checking
balance (a database aggregate) and the current month arrive as parameters;
the result is the by-month budget map in month order. -/
def computeBudet (rolloverEnabled : Bool) (nowMonth : Nat) (checkingBalance : Rat)
    (forecastPostings expensesPostings : List Posting) : List (Nat × MonthBudget) :=
  monthsLoop rolloverEnabled nowMonth (accountsOf forecastPostings)
    forecastPostings expensesPostings (monthsWindow forecastPostings)
    (fun _ => 0) checkingBalance

end Budget

/-! ## Cash flow (`computeCashFlow`, internal/server/cash_flow.go) -/

namespace CashFlow

/-- A calendar instant at the granularity the cash-flow loop observes:
`ym` is a month index; `t` is a within-month instant, encoded so that
midnight of day `k` is `2 * k` and end of day `k` is `2 * k + 1` (an
order-embedding of the instants the source compares: posting dates are
midnights, `utils.EndOfToday()` is an end of day, and `BeginningOfMonth`
is the midnight of day 1, i.e. `t = 2`). -/
structure Date where
  ym : Nat
  t : Nat
deriving DecidableEq, Repr

/-- `time.Before`: lexicographic comparison of instants. -/
def Date.before (a b : Date) : Bool :=
  a.ym < b.ym || (a.ym == b.ym && a.t < b.t)

/-- `utils.MaxTime`. -/
def maxDate (a b : Date) : Date := if a.before b then b else a

/-- A posting as consumed by the cash-flow accumulator. -/
structure Posting where
  account : String
  date : Date
  amount : Rat
deriving DecidableEq, Repr

/-- Modelled from the spec: `accounting.CostSum` (not under src/) — the sum
of the postings' booked amounts ("Σ amounts", §4.4.2). -/
def costSum (ps : List Posting) : Rat := ps.foldl (fun acc p => acc + p.amount) 0

/-- The monthly `CashFlow` record. -/
structure Record where
  date : Date
  income : Rat
  expenses : Rat
  liabilities : Rat
  investment : Rat
  tax : Rat
  checking : Rat
  balance : Rat
deriving DecidableEq, Repr

/-- Postings of one month-grouped category falling in month `ym`
(`utils.GroupByMonth` followed by the month-key lookup; an absent key
leaves the field at zero, which coincides with `CostSum` of the empty
slice). -/
def inMonth (ps : List Posting) (ym : Nat) : List Posting :=
  ps.filter (fun p => p.date.ym == ym)

/-- The monthly loop of `computeCashFlow`.  The source iterates
`start` from the beginning of the first posting's month while
`start.Before(end)`, stepping one month; `start` always has `t = 2`
(midnight of day 1), so the iteration count is
`(end.ym + (if 2 < end.t then 1 else 0)) - startYm`, which is taken as
a structural counter. -/
def loop (expensesPs incomesPs liabilitiesPs investmentsPs taxesPs checkingsPs :
    List Posting) : Nat → Nat → Rat → List Record
  | 0, _, _ => []
  | n + 1, ym, balance =>
    let checking := costSum (inMonth checkingsPs ym)
    let balance := balance + checking
    { date := ⟨ym, 2⟩
      income := -(costSum (inMonth incomesPs ym))
      expenses := costSum (inMonth expensesPs ym)
      liabilities := -(costSum (inMonth liabilitiesPs ym))
      investment := costSum (inMonth investmentsPs ym)
      tax := costSum (inMonth taxesPs ym)
      checking := checking
      balance := balance } ::
      loop expensesPs incomesPs liabilitiesPs investmentsPs taxesPs checkingsPs
        n (ym + 1) balance

/-- The iteration count of the monthly loop (see `loop`). -/
def monthsUntil (startYm : Nat) (e : Date) : Nat :=
  (e.ym + (if 2 < e.t then 1 else 0)) - startYm

/-- `computeCashFlow(db, q, balance)`: the six category queries are the
base query's slice refined by the account filters of §4.1 (`Like` with a
`%` suffix is prefix match; `AccountPrefix`/`NotAccountPrefix` are subtree
filters at colon boundaries).  The window runs from the beginning of the
first posting's month to `max(end of today, last posting's date)`. -/
def computeCashFlow (ps : List Posting) (balance : Rat) (endOfToday : Date) :
    List Record :=
  let expensesPs := ps.filter
    (fun p => "Expenses:".isPrefixOf p.account && !isSameOrParent p.account "Expenses:Tax")
  let incomesPs := ps.filter (fun p => "Income:".isPrefixOf p.account)
  let liabilitiesPs := ps.filter (fun p => "Liabilities:".isPrefixOf p.account)
  let investmentsPs := ps.filter
    (fun p => "Assets:".isPrefixOf p.account && !isSameOrParent p.account "Assets:Checking")
  let taxesPs := ps.filter (fun p => isSameOrParent p.account "Expenses:Tax")
  let checkingsPs := ps.filter (fun p => isSameOrParent p.account "Assets:Checking")
  match ps.head?, ps.getLast? with
  | some p0, some p1 =>
    let e := maxDate endOfToday p1.date
    loop expensesPs incomesPs liabilitiesPs investmentsPs taxesPs checkingsPs
      (monthsUntil p0.date.ym e) p0.date.ym balance
  | _, _ => []

/-- `GetCurrentCashFlow(db)`: the seed balance is `CostSum` of the checking
postings strictly before the window, and the window is the last three
months.  `windowStart` (the beginning of the month three months ago — a
time-zone-dependent collaborator computation) arrives as a parameter;
`BeforeNMonths(3)` / `LastNMonths(3)` are modelled from the spec (§4.1
"date-window filters") as the postings before / not before it. -/
def GetCurrentCashFlow (allPs : List Posting) (windowStart : Date) (endOfToday : Date) :
    List Record :=
  let seed := costSum (allPs.filter
    (fun p => isSameOrParent p.account "Assets:Checking" && p.date.before windowStart))
  computeCashFlow (allPs.filter (fun p => !p.date.before windowStart)) seed endOfToday

end CashFlow

/-! ## Sheet expression language (Environment, Query, AST evaluator) -/

namespace Sheet

/-- A posting as the sheet language sees it: a transaction id plus an
abstract payload distinguishing postings. -/
structure Posting where
  txnId : Nat
  tag : Nat
deriving DecidableEq, Repr

/-- The transaction view used by posting predicates. -/
structure Transaction where
  id : Nat
  postings : List Posting
deriving DecidableEq, Repr

/-- Modelled from the spec: `asTransaction` (from `$lib/utils`, not under
src/) — the "Transaction view" of §3: "a derived record grouping postings
by `transaction_id`, preserving first-encountered order of its postings".
Applied to one posting of `all`, it yields that posting's transaction. -/
def asTransaction (all : List Posting) (p : Posting) : Transaction :=
  ⟨p.txnId, all.filter (fun q => q.txnId == p.txnId)⟩

/-- `STACK_LIMIT`. -/
def STACK_LIMIT : Nat := 1000

/-- The sheet AST (the `value` nodes of `ExpressionAST`): literals carry
their parsed numeric value (`NumberAST` and `PercentAST` both store it,
the percent already divided by 100 at parse time); `postings { … }` nodes
carry the transaction predicate the search sub-language compiled to;
grouping nodes are transparent wrappers and are inlined. -/
inductive Expr where
  | lit (value : Rat)
  | ident (name : String)
  | unary (op : String) (e : Expr)
  | binary (l : Expr) (op : String) (r : Expr)
  | call (name : String) (args : List Expr)
  | postingsQ (predicate : Transaction → Bool)

/-- A memoized posting query: the predicate plus the `result` cache
(`null` until the first `resolve`). -/
structure QueryVal where
  predicate : Transaction → Bool
  result : Option (List Posting)

/-- Sheet values: `Number` (exact decimal), `Query`, function values
(closures are defunctionalized to their parameter list and body — the
source closure captures exactly those and receives the call-site
environment), arrays of postings, strings (header text), and `null`
(the result of a function-definition line). -/
inductive Value where
  | num (value : Rat)
  | query (q : QueryVal)
  | fn (params : List String) (body : Expr)
  | arr (postings : List Posting)
  | str (s : String)
  | null

/-- A lexical scope: identifier to value, `none` for JS `undefined`. -/
def Scope := String → Option Value

/-- The sheet `Environment`. -/
structure Environment where
  scope : Scope
  depth : Nat
  postings : List Posting

/-- `new Environment()` over the request's postings. -/
def Environment.new (ps : List Posting) : Environment :=
  { scope := fun _ => none, depth := 0, postings := ps }

/-- `Environment.extend(scope)`: the child environment has depth one more
than the parent and the parent's scope overridden by the new bindings;
extension throws `"Call stack overflow"` when the parent's depth exceeds
`STACK_LIMIT`. -/
def Environment.extend (env : Environment) (scope : Scope) : Except String Environment :=
  if STACK_LIMIT < env.depth then .error "Call stack overflow"
  else .ok
    { scope := fun k => match scope k with
        | some v => some v
        | none => env.scope k
      depth := env.depth + 1
      postings := env.postings }

/-- Iterated extension with empty bindings: a chain of `n` nested
`extend` calls, as produced by `n` nested function calls. -/
def chainExtend (env : Environment) : Nat → Except String Environment
  | 0 => .ok env
  | n + 1 =>
    match env.extend (fun _ => none) with
    | .ok e => chainExtend e n
    | .error msg => .error msg

/-- `Query.resolve(env)`: on the first call, materialize the postings —
every posting of `env.postings` is mapped to its transaction view, the
predicate filters them, and each surviving transaction contributes its
first posting — and cache the slice; later calls return the cache.  The
updated query is returned alongside (the source mutates `this.result`). -/
def QueryVal.resolve (q : QueryVal) (env : Environment) : List Posting × QueryVal :=
  match q.result with
  | some r => (r, q)
  | none =>
    let r := ((env.postings.map (asTransaction env.postings)).filter q.predicate).map
      (fun t => t.postings.headD ⟨0, 0⟩)
    (r, { q with result := some r })

/-- `Query.and`: a fresh query (empty cache) with the conjunction. -/
def QueryVal.and (q r : QueryVal) : QueryVal :=
  ⟨fun t => q.predicate t && r.predicate t, none⟩

/-- `Query.or`: a fresh query (empty cache) with the disjunction. -/
def QueryVal.or (q r : QueryVal) : QueryVal :=
  ⟨fun t => q.predicate t || r.predicate t, none⟩

/-- The type tag `assertType` reports: `Number` for `BigNumber`, `Query`
for queries, `Array` for arrays, `Unknown` otherwise. -/
def valueTypeName : Value → String
  | .num _ => "Number"
  | .query _ => "Query"
  | .arr _ => "Array"
  | _ => "Unknown"

/-- `assertType(type, value)`. -/
def assertType (type : String) (v : Value) : Except String Unit :=
  if type == "Postings" then
    if valueTypeName v == "Query" || valueTypeName v == "Array" then .ok ()
    else .error ("Expected " ++ type ++ ", got " ++ valueTypeName v)
  else if type == valueTypeName v then .ok ()
  else .error ("Expected " ++ type ++ ", got " ++ valueTypeName v)

/-- `assertType("Number", v)` followed by the cast to `BigNumber`. -/
def asNumber (v : Value) : Except String Rat :=
  match v with
  | .num q => .ok q
  | _ => .error ("Expected Number, got " ++ valueTypeName v)

/-- `assertType("Query", v)` followed by the cast to `Query`. -/
def asQuery (v : Value) : Except String QueryVal :=
  match v with
  | .query q => .ok q
  | _ => .error ("Expected Query, got " ++ valueTypeName v)

/-- `BigNumber.exponentiatedBy`: defined for integer exponents (the
library rejects fractional ones). -/
def bnPow (a b : Rat) : Except String Value :=
  if b.den = 1 then .ok (.num (a ^ b.num)) else .error "Exponent not an integer"

/-- Binding of a called function's parameters to the evaluated arguments
in the freshly extended environment (`newEnv.scope[parameters[i]] =
args[i]`; surplus arguments are dropped, surplus parameters stay
unbound). -/
def bindParams (env : Environment) (params : List String) (args : List Value) :
    Environment :=
  let s := (params.zip args).foldl
    (fun s pa => fun k => if k = pa.1 then some pa.2 else s k) env.scope
  { env with scope := s }

mutual

/-- The expression evaluator (`ExpressionAST.evaluate` and the node
evaluators it dispatches to).  Unary and binary operators assert operand
types; `AND`/`OR` compose queries; a call looks the function up (failing
with `Undefined function` when the name is not bound to one), evaluates
the arguments, extends the call-site environment — the only recursion
— and evaluates the body.  `dividedBy` of `BigNumber` at zero yields a
non-finite value outside this embedding; `Rat` division by zero yields 0.
Termination: nested calls strictly increase the environment depth, which
`extend` caps at `STACK_LIMIT + 1`. -/
def eval (env : Environment) : Expr → Except String Value
  | .lit v => .ok (.num v)
  | .ident n =>
    match env.scope n with
    | none => .error ("Undefined variable " ++ n)
    | some v => .ok v
  | .unary op e =>
    match op with
    | "-" => do
      let v ← eval env e
      let q ← asNumber v
      .ok (.num (-q))
    | "+" => do
      let v ← eval env e
      let q ← asNumber v
      .ok (.num q)
    | _ => .error "Unexpected operator"
  | .binary l op r => do
    let lv ← eval env l
    let rv ← eval env r
    match op with
    | "+" => do .ok (.num ((← asNumber lv) + (← asNumber rv)))
    | "-" => do .ok (.num ((← asNumber lv) - (← asNumber rv)))
    | "*" => do .ok (.num ((← asNumber lv) * (← asNumber rv)))
    | "/" => do .ok (.num ((← asNumber lv) / (← asNumber rv)))
    | "^" => do bnPow (← asNumber lv) (← asNumber rv)
    | "AND" => do .ok (.query ((← asQuery lv).and (← asQuery rv)))
    | "OR" => do .ok (.query ((← asQuery lv).or (← asQuery rv)))
    | _ => .error "Unexpected operator"
  | .call name args =>
    match env.scope name with
    | some (.fn params body) => do
      let argv ← evalList env args
      match h : env.extend (fun _ => none) with
      | .error e => .error e
      | .ok newEnv => eval (bindParams newEnv params argv) body
    | _ => .error ("Undefined function " ++ name)
  | .postingsQ pred => .ok (.query ⟨pred, none⟩)
termination_by e => (STACK_LIMIT + 2 - env.depth, sizeOf e)
decreasing_by
  all_goals simp_wf
  · apply Prod.Lex.right; omega
  · apply Prod.Lex.right; omega
  · apply Prod.Lex.right; omega
  · apply Prod.Lex.right; omega
  · apply Prod.Lex.right; omega
  · simp only [bindParams, Environment.extend, STACK_LIMIT] at h ⊢
    split at h
    · exact absurd h (by simp)
    · injection h with h; subst h
      apply Prod.Lex.left
      simp_all
      omega

/-- Evaluation of a call's argument list, left to right. -/
def evalList (env : Environment) : List Expr → Except String (List Value)
  | [] => .ok []
  | e :: rest => do
    let v ← eval env e
    let vs ← evalList env rest
    .ok (v :: vs)
termination_by es => (STACK_LIMIT + 2 - env.depth, sizeOf es)
decreasing_by
  all_goals simp_wf
  · apply Prod.Lex.right; omega
  · apply Prod.Lex.right; omega

end

/-- A sheet line's payload: expression, assignment, function definition,
or header. -/
inductive LineValue where
  | expr (e : Expr)
  | assign (name : String) (e : Expr)
  | fnDecl (name : String) (params : List String) (body : Expr)
  | header (text : String)

/-- A parsed sheet line (`LineAST`): its 1-based document line number and
its payload. -/
structure Line where
  lineNumber : Nat
  value : LineValue

/-- One entry of the evaluation output (`SheetLineResult`). -/
structure SheetLineResult where
  line : Nat
  error : Bool
  result : String
  align : Option String := none
  bold : Bool := false
deriving Repr

/-- Presentation collaborators of `LineAST.evaluate`: `formatCurrency`
(locale formatting of a number) and the JS `toString` of function and
array values (source text / joined elements), all opaque strings here. -/
structure LineCtx where
  formatCurrency : Rat → String
  fnToString : List String → Expr → String
  arrToString : List Posting → String

/-- The string a line result shows for a value: numbers are formatted as
currency, `null` and queries render empty (`Query.toString()` is `""`),
headers render their text. -/
def renderValue (ctx : LineCtx) : Value → String
  | .num q => ctx.formatCurrency q
  | .null => ""
  | .str s => s
  | .query _ => ""
  | .fn ps b => ctx.fnToString ps b
  | .arr ps => ctx.arrToString ps

/-- `env.scope[k] = v` (assignment and function-definition lines mutate
the environment's scope in place). -/
def updateScope (env : Environment) (k : String) (v : Value) : Environment :=
  { env with scope := fun x => if x = k then some v else env.scope x }

/-- `LineAST.evaluate`: produce the line's result object and the (possibly
mutated) environment, or the thrown error message. -/
def lineEval (ctx : LineCtx) (env : Environment) (l : Line) :
    Except String (SheetLineResult × Environment) :=
  match l.value with
  | .expr e => do
    let v ← eval env e
    .ok ({ line := l.lineNumber, error := false, result := renderValue ctx v }, env)
  | .assign n e => do
    let v ← eval env e
    .ok ({ line := l.lineNumber, error := false, result := renderValue ctx v },
      updateScope env n v)
  | .fnDecl n params body =>
    .ok ({ line := l.lineNumber, error := false, result := "" },
      updateScope env n (.fn params body))
  | .header t =>
    .ok ({ line := l.lineNumber, error := false, result := t, align := some "left",
           bold := true }, env)

/-- The blank entries pushed for skipped document lines (the `while` that
advances `lastLineNumber` up to just before the next parsed line). -/
def blanksFor (last n : Nat) : List SheetLineResult :=
  (List.range (n - (last + 1))).map
    (fun j => { line := last + 1 + j, error := false, result := "" })

/-- The loop body of `SheetAST.evaluate`, threading the environment and
`lastLineNumber`: pad skipped lines with blank results, then evaluate the
line; on success push its result and continue, on error push the error
entry and stop. -/
def evalLoop (ctx : LineCtx) : List Line → Environment → Nat → List SheetLineResult
  | [], _, _ => []
  | l :: rest, env, last =>
    let pad := l.lineNumber - (last + 1)
    match lineEval ctx env l with
    | .ok (res, env') => blanksFor last l.lineNumber ++ res ::
        evalLoop ctx rest env' (last + pad + 1)
    | .error msg => blanksFor last l.lineNumber ++
        [{ line := l.lineNumber, error := true, result := msg }]

/-- `evalLoop`, instrumented with its continuation state: alongside the
results it returns the environment and `lastLineNumber` after the lines —
or `none` when evaluation aborted on an error. -/
def evalLoopTrace (ctx : LineCtx) :
    List Line → Environment → Nat → List SheetLineResult × Option (Environment × Nat)
  | [], env, last => ([], some (env, last))
  | l :: rest, env, last =>
    let pad := l.lineNumber - (last + 1)
    match lineEval ctx env l with
    | .ok (res, env') =>
      let r := evalLoopTrace ctx rest env' (last + pad + 1)
      (blanksFor last l.lineNumber ++ res :: r.1, r.2)
    | .error msg =>
      (blanksFor last l.lineNumber ++
        [{ line := l.lineNumber, error := true, result := msg }], none)

/-- `SheetAST.evaluate(env)`: run the loop from `lastLineNumber = 0`. -/
def evaluate (ctx : LineCtx) (lines : List Line) (env : Environment) :
    List SheetLineResult :=
  evalLoop ctx lines env 0

end Sheet

/-! ## Concrete instances used by witnesses and counterexamples -/

namespace Examples

/-- A context in which nothing is classified, prices are the booked
amounts, and every commodity is a currency. -/
def nwCtx : Networth.Ctx :=
  { isInterest := fun _ => false
    isInterestRepayment := fun _ => false
    isStockSplit := fun _ => false
    isCapitalGains := fun _ => false
    marketPrice := fun p _ => p.amount
    unitPrice := fun _ _ => 0
    isCurrency := fun _ => true }

/-- A context in which every posting is capital gains. -/
def cgCtx : Networth.Ctx :=
  { nwCtx with isCapitalGains := fun _ => true }

/-- A single currency posting of amount 1 on day 0. -/
def nwPosting : Networth.Posting := ⟨0, "INR", 1, 0⟩

/-- A capital-gains posting of amount −500. -/
def cgPosting : Networth.Posting := ⟨0, "NIFTY", -500, 0⟩

/-- A single currency posting whose amount 1/200 stays below the 0.01
termination cut. -/
def nwTiny : Networth.Posting := ⟨0, "INR", 1/200, 0⟩

/-- A breakdown context where only `"INR"` is a currency and nothing is
classified. -/
def c3Ctx : Assets.Ctx :=
  { isCheckingAccount := fun _ => false
    isInterest := fun _ => false
    isStockSplit := fun _ => false
    isCapitalGains := fun _ => false
    isCurrency := fun c => c == "INR"
    currentBalance := fun _ => 0
    xirr := fun _ => 0 }

/-- A leaf group holding 10 units of a non-currency commodity followed by
a currency posting. -/
def c3Ps : List Assets.Posting :=
  [⟨"Assets:Gold", "GOLD", 10, -1000⟩, ⟨"Assets:Gold", "INR", 0, 5⟩]

/-- Forecast postings: 10000 for `Expenses:Food` in months 0 and 1. -/
def bgFps4 : List Budget.Posting :=
  [⟨"Expenses:Food", 0, 10000⟩, ⟨"Expenses:Food", 1, 10000⟩]

/-- Actual expenses: 8000 in month 0, 12000 in month 1. -/
def bgEps4 : List Budget.Posting :=
  [⟨"Expenses:Food", 0, 8000⟩, ⟨"Expenses:Food", 1, 12000⟩]

/-- Forecasts for both an ancestor account and its child in month 0. -/
def bgFps5 : List Budget.Posting :=
  [⟨"Expenses:Food", 0, 100⟩, ⟨"Expenses:Food:Restaurant", 0, 50⟩]

/-- One actual expense on the child account in month 0. -/
def bgEps5 : List Budget.Posting := [⟨"Expenses:Food:Restaurant", 0, 30⟩]

/-- Two postings in month 0: a salary income of −100 and a checking
deposit of 100. -/
def cfPs : List CashFlow.Posting :=
  [⟨"Income:Salary", ⟨0, 2⟩, -100⟩, ⟨"Assets:Checking:SBI", ⟨0, 2⟩, 100⟩]

/-- A presentation context rendering every number and function as the
empty string. -/
def shCtx : Sheet.LineCtx :=
  { formatCurrency := fun _ => ""
    fnToString := fun _ _ => ""
    arrToString := fun _ => "" }

/-- Line 1 of a small sheet: `f(x) = 1`. -/
def shLine1 : Sheet.Line := ⟨1, .fnDecl "f" ["x"] (.lit 1)⟩

/-- Line 2 of the sheet: the undefined identifier `y`. -/
def shLine2 : Sheet.Line := ⟨2, .expr (.ident "y")⟩

/-- Line 3 of the sheet: the literal `7`; never reached. -/
def shLine3 : Sheet.Line := ⟨3, .expr (.lit 7)⟩

end Examples

end Paisa

/-! # Theorems -/

namespace Paisa.Networth

theorem go_record_identities (ctx : Ctx) (flag : Bool) :
    ∀ (n start : Nat) (ps : List Posting) (acc : AccMap) (r : Record),
      r ∈ (go ctx flag n start ps acc).map Prod.fst →
      r.netInvestmentAmount = r.investmentAmount - r.withdrawalAmount ∧
      r.gainAmount = r.balanceAmount + r.withdrawalAmount - r.investmentAmount := by
  intro n
  induction n with
  | zero => intro start ps acc r h; simp [go] at h
  | succ n ih =>
    intro start ps acc r h
    rw [go] at h
    split at h
    · simp only [List.map_cons, List.map_nil, List.mem_singleton] at h
      subst h
      exact ⟨rfl, rfl⟩
    · simp only [List.map_cons, List.mem_cons] at h
      rcases h with h | h
      · subst h
        exact ⟨rfl, rfl⟩
      · exact ih _ _ _ r h

end Paisa.Networth

/-- C1: every record produced by `computeNetworthTimeline` and by
`computeNetworth` satisfies `netInvestment = investment − withdrawal`
and `gain = balance + withdrawal − investment`. -/
theorem C1_networth_record_identities :
    (∀ (ctx : Paisa.Networth.Ctx) (flag : Bool) (endDate : Nat)
        (ps : List Paisa.Networth.Posting) (r : Paisa.Networth.Record),
        r ∈ Paisa.Networth.computeNetworthTimeline ctx flag endDate ps →
        r.netInvestmentAmount = r.investmentAmount - r.withdrawalAmount ∧
        r.gainAmount = r.balanceAmount + r.withdrawalAmount - r.investmentAmount) ∧
    (∀ (ctx : Paisa.Networth.Ctx) (now : Nat) (ps : List Paisa.Networth.Posting),
        (Paisa.Networth.computeNetworth ctx now ps).netInvestmentAmount =
            (Paisa.Networth.computeNetworth ctx now ps).investmentAmount -
              (Paisa.Networth.computeNetworth ctx now ps).withdrawalAmount ∧
        (Paisa.Networth.computeNetworth ctx now ps).gainAmount =
            (Paisa.Networth.computeNetworth ctx now ps).balanceAmount +
              (Paisa.Networth.computeNetworth ctx now ps).withdrawalAmount -
              (Paisa.Networth.computeNetworth ctx now ps).investmentAmount) := by
  constructor
  · intro ctx flag endDate ps r h
    match ps with
    | [] => simp [Paisa.Networth.computeNetworthTimeline] at h
    | p :: rest =>
      exact Paisa.Networth.go_record_identities ctx flag _ _ _ _ r h
  · intro ctx now ps
    unfold Paisa.Networth.computeNetworth
    split
    · constructor <;> norm_num
    · exact ⟨rfl, rfl⟩

/-- Witness for C1: the identities hold on the concrete first record of a
one-posting timeline. -/
theorem C1_networth_record_identities_witness :
    (⟨0, 1, 0, 0, 1, 0, 1⟩ : Paisa.Networth.Record) ∈
        Paisa.Networth.computeNetworthTimeline Paisa.Examples.nwCtx false 1
          [Paisa.Examples.nwPosting] ∧
    ((1 : Rat) = 1 - 0 ∧ (0 : Rat) = 1 + 0 - 1) :=
  have h : (⟨0, 1, 0, 0, 1, 0, 1⟩ : Paisa.Networth.Record) ∈
      Paisa.Networth.computeNetworthTimeline Paisa.Examples.nwCtx false 1
        [Paisa.Examples.nwPosting] := by with_unfolding_all decide
  ⟨h, C1_networth_record_identities.1 Paisa.Examples.nwCtx false 1 [Paisa.Examples.nwPosting]
    ⟨0, 1, 0, 0, 1, 0, 1⟩ h⟩

namespace Paisa.Networth

theorem lookupRS_insertRS (acc : AccMap) (k : String) (v : RunningSum) :
    lookupRS (insertRS acc k v) k = v := by
  induction acc with
  | nil => simp [insertRS, lookupRS, List.find?]
  | cons e rest ih =>
    rw [insertRS]
    split
    · simp [lookupRS, List.find?]
    · rename_i hne
      have hb : (e.1 == k) = false := by
        cases hbe : (e.1 == k) with
        | false => rfl
        | true => exact absurd hbe hne
      simp only [lookupRS, List.find?, hb]
      exact ih

end Paisa.Networth

/-- C2 counterexample: the claim says a capital-gains posting leaves the
per-commodity accumulator completely unchanged, but in
`computeNetworthTimeline` only the balance and unit updates are guarded by
the capital-gains check; the investment/withdrawal updates only check
interest.  Feeding a capital-gains posting of amount −500 into the fold's
step turns the empty accumulator into one whose entry carries
withdrawal 500. -/
theorem C2_capital_gains_counterexample :
    Paisa.Examples.cgCtx.isCapitalGains Paisa.Examples.cgPosting = true ∧
    Paisa.Networth.step Paisa.Examples.cgCtx 0 [] Paisa.Examples.cgPosting ≠ [] ∧
    (Paisa.Networth.lookupRS
        (Paisa.Networth.step Paisa.Examples.cgCtx 0 [] Paisa.Examples.cgPosting)
        "NIFTY").withdrawal = 500 := by
  refine ⟨rfl, ?_, by with_unfolding_all decide⟩
  simp only [Paisa.Networth.step]
  with_unfolding_all decide

/-- C2 (amended): in the net-worth timeline fold, a posting classified as
capital-gains contributes 0 to the commodity's balance and balance units,
but its amount still feeds investment (when positive and not interest) and
withdrawal (when negative and not interest), like any other posting. -/
theorem C2_capital_gains_frame_amended (ctx : Paisa.Networth.Ctx) (start : Nat)
    (acc : Paisa.Networth.AccMap) (p : Paisa.Networth.Posting)
    (h : ctx.isCapitalGains p = true) :
    (Paisa.Networth.lookupRS (Paisa.Networth.step ctx start acc p) p.commodity).balance =
        (Paisa.Networth.lookupRS acc p.commodity).balance ∧
    (Paisa.Networth.lookupRS (Paisa.Networth.step ctx start acc p) p.commodity).balanceUnits =
        (Paisa.Networth.lookupRS acc p.commodity).balanceUnits ∧
    (Paisa.Networth.lookupRS (Paisa.Networth.step ctx start acc p) p.commodity).investment =
        (Paisa.Networth.lookupRS acc p.commodity).investment +
          (if 0 < p.amount ∧ ctx.isInterest p = false then p.amount else 0) ∧
    (Paisa.Networth.lookupRS (Paisa.Networth.step ctx start acc p) p.commodity).withdrawal =
        (Paisa.Networth.lookupRS acc p.commodity).withdrawal +
          (if p.amount < 0 ∧ ctx.isInterest p = false then -p.amount else 0) := by
  simp only [Paisa.Networth.step]
  rw [Paisa.Networth.lookupRS_insertRS]
  by_cases hI : ctx.isInterest p = false
  · by_cases hpos : 0 < p.amount
    · have hneg : ¬ p.amount < 0 := lt_asymm hpos
      simp [h, hI, hpos, hneg]
    · by_cases hneg : p.amount < 0
      · simp [h, hI, hpos, hneg]
      · simp [h, hI, hpos, hneg]
  · have hI2 : ctx.isInterest p = true := by
      cases hbe : ctx.isInterest p with
      | false => exact absurd hbe hI
      | true => rfl
    simp [h, hI2]

/-- Witness for C2 (amended): evaluated on the concrete capital-gains
posting of amount −500 over the empty accumulator. -/
theorem C2_capital_gains_frame_amended_witness :
    (Paisa.Networth.lookupRS
        (Paisa.Networth.step Paisa.Examples.cgCtx 0 [] Paisa.Examples.cgPosting)
        Paisa.Examples.cgPosting.commodity).balance =
      (Paisa.Networth.lookupRS [] Paisa.Examples.cgPosting.commodity).balance ∧
    (Paisa.Networth.lookupRS
        (Paisa.Networth.step Paisa.Examples.cgCtx 0 [] Paisa.Examples.cgPosting)
        Paisa.Examples.cgPosting.commodity).balanceUnits =
      (Paisa.Networth.lookupRS [] Paisa.Examples.cgPosting.commodity).balanceUnits ∧
    (Paisa.Networth.lookupRS
        (Paisa.Networth.step Paisa.Examples.cgCtx 0 [] Paisa.Examples.cgPosting)
        Paisa.Examples.cgPosting.commodity).investment =
      (Paisa.Networth.lookupRS [] Paisa.Examples.cgPosting.commodity).investment +
        (if 0 < Paisa.Examples.cgPosting.amount ∧
            Paisa.Examples.cgCtx.isInterest Paisa.Examples.cgPosting = false then
          Paisa.Examples.cgPosting.amount else 0) ∧
    (Paisa.Networth.lookupRS
        (Paisa.Networth.step Paisa.Examples.cgCtx 0 [] Paisa.Examples.cgPosting)
        Paisa.Examples.cgPosting.commodity).withdrawal =
      (Paisa.Networth.lookupRS [] Paisa.Examples.cgPosting.commodity).withdrawal +
        (if Paisa.Examples.cgPosting.amount < 0 ∧
            Paisa.Examples.cgCtx.isInterest Paisa.Examples.cgPosting = false then
          -Paisa.Examples.cgPosting.amount else 0) :=
  C2_capital_gains_frame_amended Paisa.Examples.cgCtx 0 [] Paisa.Examples.cgPosting rfl

/-- C3 (code bug): the claim — and the intent visible in the sibling
`investmentAmount`/`withdrawalAmount` reduces, which return `acc` in their
skip branch — says `balanceUnits` is the sum of quantities over
non-currency postings, here 10.  The source's reduce returns
`decimal.Zero` instead of the accumulator when it meets a currency
posting, so a currency posting appearing after the non-currency ones
resets the sum: the code yields 0. -/
theorem C3_balance_units_reset_bug :
    (Paisa.Assets.ComputeBreakdown Paisa.Examples.c3Ctx Paisa.Examples.c3Ps true
        "Assets:Gold").balanceUnits = 0 ∧
    Paisa.Assets.specBalanceUnits Paisa.Examples.c3Ctx Paisa.Examples.c3Ps = 10 ∧
    (0 : Rat) ≠ 10 := by
  refine ⟨by with_unfolding_all decide, by with_unfolding_all decide, by norm_num⟩

namespace Paisa.Sheet

theorem extend_error_iff (env : Environment) (s : Scope) :
    (∃ e, env.extend s = .error e) ↔ STACK_LIMIT < env.depth := by
  unfold Environment.extend
  split
  · rename_i h; exact ⟨fun _ => h, fun _ => ⟨_, rfl⟩⟩
  · rename_i h
    simp only [not_lt] at h
    exact ⟨(fun he => by obtain ⟨e, he⟩ := he; cases he),
      (fun hc => absurd hc (not_lt.mpr h))⟩

theorem extend_error_msg_iff (env : Environment) (s : Scope) :
    env.extend s = .error "Call stack overflow" ↔ STACK_LIMIT < env.depth := by
  unfold Environment.extend
  split
  · rename_i h; exact ⟨fun _ => h, fun _ => rfl⟩
  · rename_i h
    simp only [not_lt] at h
    exact ⟨(fun he => by cases he), (fun hc => absurd hc (not_lt.mpr h))⟩

theorem extend_ok_of_le (env : Environment) (s : Scope) (h : env.depth ≤ STACK_LIMIT) :
    ∃ env', env.extend s = .ok env' ∧ env'.depth = env.depth + 1 := by
  unfold Environment.extend
  rw [if_neg (not_lt.mpr h)]
  exact ⟨_, rfl, rfl⟩

theorem extend_ok_inv (env : Environment) (s : Scope) (env' : Environment)
    (h : env.extend s = .ok env') :
    env.depth ≤ STACK_LIMIT ∧ env'.depth = env.depth + 1 := by
  unfold Environment.extend at h
  split at h
  · cases h
  · rename_i hlt
    cases h
    exact ⟨not_lt.mp hlt, rfl⟩

theorem chainExtend_error_iff_depth :
    ∀ (n : Nat) (env : Environment),
      (∃ e, chainExtend env n = .error e) ↔
        (0 < n ∧ STACK_LIMIT + 1 < env.depth + n) := by
  intro n
  induction n with
  | zero =>
    intro env
    constructor
    · rintro ⟨e, he⟩; cases he
    · rintro ⟨h0, _⟩; cases h0
  | succ n ih =>
    intro env
    rw [chainExtend]
    cases hx : env.extend (fun _ => none) with
    | error e =>
      have hd := (extend_error_iff env (fun _ => none)).mp ⟨e, hx⟩
      constructor
      · intro _; exact ⟨Nat.succ_pos n, by omega⟩
      · intro _; exact ⟨e, rfl⟩
    | ok e' =>
      obtain ⟨hle, hd⟩ := extend_ok_inv env (fun _ => none) e' hx
      rw [ih e']
      constructor
      · rintro ⟨hn, hlt⟩; exact ⟨Nat.succ_pos n, by omega⟩
      · rintro ⟨_, hlt⟩; exact ⟨by omega, by omega⟩

theorem chainExtend_error_iff (ps : List Posting) (n : Nat) :
    (∃ e, chainExtend (Environment.new ps) n = .error e) ↔ STACK_LIMIT + 1 < n := by
  rw [chainExtend_error_iff_depth]
  show _ ∧ STACK_LIMIT + 1 < 0 + n ↔ _
  constructor
  · rintro ⟨_, h⟩; omega
  · intro h; exact ⟨by omega, by omega⟩

end Paisa.Sheet

/-- C6: sheet environment extension tracks the recursion depth and fails
with "Call stack overflow" exactly when the depth cap `STACK_LIMIT = 1000`
is exceeded: `extend` throws — and throws that message — iff the extended
environment's depth is above 1000 (so an environment that has reached
depth 1001 overflows on the next extension, and no extension at or below
the cap throws); a chain of `n` nested extensions from a fresh
environment fails iff it would have to go past depth 1001. -/
theorem C6_extend_stack_overflow :
    (∀ (env : Paisa.Sheet.Environment) (s : Paisa.Sheet.Scope),
        (∃ e, env.extend s = .error e) ↔ Paisa.Sheet.STACK_LIMIT < env.depth) ∧
    (∀ (env : Paisa.Sheet.Environment) (s : Paisa.Sheet.Scope),
        env.extend s = .error "Call stack overflow" ↔
          Paisa.Sheet.STACK_LIMIT < env.depth) ∧
    (∀ (ps : List Paisa.Sheet.Posting) (n : Nat),
        (∃ e, Paisa.Sheet.chainExtend (Paisa.Sheet.Environment.new ps) n = .error e) ↔
          Paisa.Sheet.STACK_LIMIT + 1 < n) :=
  ⟨Paisa.Sheet.extend_error_iff, Paisa.Sheet.extend_error_msg_iff,
    Paisa.Sheet.chainExtend_error_iff⟩

namespace Paisa.Sheet

theorem headD_filter (p : Posting → Bool) (l : List Posting) (d : Posting) :
    (l.filter p).headD d = ((l.find? p).getD d) := by
  induction l with
  | nil => rfl
  | cons a l ih =>
    rw [List.filter, List.find?]
    cases h : p a
    · exact ih
    · rfl

end Paisa.Sheet

/-- C10 counterexample: the claim says `resolve` returns one posting per
transaction of `env.postings` satisfying the predicate.  With two postings
of the same transaction and the always-true predicate there is exactly one
such transaction, so the claim predicts the singleton `[⟨1, 0⟩]`; the code
maps every posting to its transaction view before filtering, so it returns
the transaction's first posting once per posting: `[⟨1, 0⟩, ⟨1, 0⟩]`. -/
theorem C10_resolve_counterexample :
    (Paisa.Sheet.QueryVal.resolve ⟨fun _ => true, none⟩
        ⟨fun _ => none, 0, [⟨1, 0⟩, ⟨1, 1⟩]⟩).1 =
      [(⟨1, 0⟩ : Paisa.Sheet.Posting), ⟨1, 0⟩] ∧
    [(⟨1, 0⟩ : Paisa.Sheet.Posting), ⟨1, 0⟩] ≠ [⟨1, 0⟩] := by
  exact ⟨rfl, by simp⟩

/-- C10 (amended): on its first call (`result` still `null`),
`q.resolve(env)` returns, for each posting of `env.postings` whose
transaction view satisfies the predicate, the first posting of that
posting's transaction (so a transaction with k matching postings
contributes k copies of its first posting), and stores the slice in
`result`; any query whose `result` is already set returns the stored slice
unchanged, whatever the predicate and environment — the predicate is not
re-applied. -/
theorem C10_resolve_amended :
    (∀ (pred : Paisa.Sheet.Transaction → Bool) (env : Paisa.Sheet.Environment),
        (Paisa.Sheet.QueryVal.resolve ⟨pred, none⟩ env).1 =
          (env.postings.filter
              (fun p => pred (Paisa.Sheet.asTransaction env.postings p))).map
            (fun p => (env.postings.find? (fun q => q.txnId == p.txnId)).getD ⟨0, 0⟩) ∧
        (Paisa.Sheet.QueryVal.resolve ⟨pred, none⟩ env).2.result =
          some (Paisa.Sheet.QueryVal.resolve ⟨pred, none⟩ env).1) ∧
    (∀ (pred : Paisa.Sheet.Transaction → Bool) (r : List Paisa.Sheet.Posting)
        (env : Paisa.Sheet.Environment),
        Paisa.Sheet.QueryVal.resolve ⟨pred, some r⟩ env = (r, ⟨pred, some r⟩)) := by
  constructor
  · intro pred env
    constructor
    · show ((env.postings.map (Paisa.Sheet.asTransaction env.postings)).filter pred).map _ = _
      rw [List.filter_map, List.map_map]
      apply List.map_congr_left
      intro p _
      show (Paisa.Sheet.asTransaction env.postings p).postings.headD ⟨0, 0⟩ = _
      rw [Paisa.Sheet.asTransaction, Paisa.Sheet.headD_filter]
    · rfl
  · intro pred r env
    rfl


namespace Paisa.Sheet

theorem evalLoop_eq_trace (ctx : LineCtx) :
    ∀ (lines : List Line) (env : Environment) (last : Nat),
      evalLoop ctx lines env last = (evalLoopTrace ctx lines env last).1 := by
  intro lines
  induction lines with
  | nil => intro env last; rfl
  | cons l rest ih =>
    intro env last
    rw [evalLoop, evalLoopTrace]
    cases hx : lineEval ctx env l with
    | ok r => simp only [ih]
    | error msg => rfl

theorem evalLoopTrace_append (ctx : LineCtx) :
    ∀ (xs ys : List Line) (env : Environment) (last : Nat),
      evalLoopTrace ctx (xs ++ ys) env last =
        (match evalLoopTrace ctx xs env last with
          | (res, some (env', last')) =>
            (res ++ (evalLoopTrace ctx ys env' last').1,
              (evalLoopTrace ctx ys env' last').2)
          | (res, none) => (res, none)) := by
  intro xs
  induction xs with
  | nil => intro ys env last; rfl
  | cons l rest ih =>
    intro ys env last
    rw [List.cons_append]
    rcases hx : lineEval ctx env l with msg | r
    · simp [evalLoopTrace, hx]
    · obtain ⟨res, env'⟩ := r
      simp only [evalLoopTrace, hx, ih]
      rcases hy : evalLoopTrace ctx rest env' (last + (l.lineNumber - (last + 1)) + 1)
        with ⟨res2, cont⟩
      cases cont <;> simp

end Paisa.Sheet

/-- C7: if, while evaluating a sheet, the line `l` (after a successfully
evaluated prefix `pre` whose results are `R` and whose final environment
is `env'`) throws `msg`, then the sheet's results are exactly `R`,
followed by the blank entries for skipped document lines, followed by the
entry for `l` with `error = true` carrying `msg` — the earlier results are
preserved unchanged and no line after `l` contributes (the lines `post`
do not appear in the result). -/
theorem C7_sheet_error_cut (ctx : Paisa.Sheet.LineCtx) (pre : List Paisa.Sheet.Line)
    (l : Paisa.Sheet.Line) (post : List Paisa.Sheet.Line)
    (env0 : Paisa.Sheet.Environment) (R : List Paisa.Sheet.SheetLineResult)
    (env' : Paisa.Sheet.Environment) (last' : Nat) (msg : String)
    (h1 : Paisa.Sheet.evalLoopTrace ctx pre env0 0 = (R, some (env', last')))
    (h2 : Paisa.Sheet.lineEval ctx env' l = .error msg) :
    Paisa.Sheet.evaluate ctx (pre ++ l :: post) env0 =
      R ++ Paisa.Sheet.blanksFor last' l.lineNumber ++
        [{ line := l.lineNumber, error := true, result := msg }] := by
  rw [Paisa.Sheet.evaluate, Paisa.Sheet.evalLoop_eq_trace,
    Paisa.Sheet.evalLoopTrace_append, h1]
  simp only [Paisa.Sheet.evalLoopTrace, h2]
  simp [List.append_assoc]

/-- Witness for C7: the sheet `f(x) = 1` / `y` / `7` evaluates to the
line-1 result followed by the line-2 error entry; line 3 is never
evaluated. -/
theorem C7_sheet_error_cut_witness :
    Paisa.Sheet.evaluate Paisa.Examples.shCtx
        ([Paisa.Examples.shLine1] ++ Paisa.Examples.shLine2 :: [Paisa.Examples.shLine3])
        (Paisa.Sheet.Environment.new []) =
      [{ line := 1, error := false, result := "" }] ++
        Paisa.Sheet.blanksFor 1 Paisa.Examples.shLine2.lineNumber ++
        [{ line := Paisa.Examples.shLine2.lineNumber, error := true,
           result := "Undefined variable y" }] :=
  C7_sheet_error_cut Paisa.Examples.shCtx [Paisa.Examples.shLine1] Paisa.Examples.shLine2
    [Paisa.Examples.shLine3] (Paisa.Sheet.Environment.new [])
    [{ line := 1, error := false, result := "" }]
    (Paisa.Sheet.updateScope (Paisa.Sheet.Environment.new []) "f" (.fn ["x"] (.lit 1))) 1
    "Undefined variable y" (by with_unfolding_all rfl)
    (by simp [Paisa.Sheet.lineEval, Paisa.Sheet.eval, Paisa.Sheet.updateScope,
      Paisa.Sheet.Environment.new, Paisa.Examples.shLine2, Bind.bind, Except.bind])

namespace Paisa.CashFlow

theorem loop_getElem? (eP iP lP vP tP cP : List Posting) :
    ∀ (n ym : Nat) (bal : Rat) (i : Nat) (cf : Record),
      (loop eP iP lP vP tP cP n ym bal)[i]? = some cf →
      cf = { date := ⟨ym + i, 2⟩
             income := -(costSum (inMonth iP (ym + i)))
             expenses := costSum (inMonth eP (ym + i))
             liabilities := -(costSum (inMonth lP (ym + i)))
             investment := costSum (inMonth vP (ym + i))
             tax := costSum (inMonth tP (ym + i))
             checking := costSum (inMonth cP (ym + i))
             balance := bal + ∑ j ∈ Finset.range (i + 1),
               costSum (inMonth cP (ym + j)) } := by
  intro n
  induction n with
  | zero => intro ym bal i cf h; rw [loop] at h; cases h
  | succ n ih =>
    intro ym bal i cf h
    rw [loop] at h
    cases i with
    | zero =>
      rw [List.getElem?_cons_zero] at h
      obtain rfl := Option.some.inj h
      simp [Finset.sum_range_one]
    | succ i =>
      rw [List.getElem?_cons_succ] at h
      have hr := ih (ym + 1) (bal + costSum (inMonth cP ym)) i cf h
      rw [hr]
      have e1 : ym + 1 + i = ym + (i + 1) := by omega
      have e2 : bal + costSum (inMonth cP ym) +
          ∑ j ∈ Finset.range (i + 1), costSum (inMonth cP (ym + 1 + j)) =
          bal + ∑ j ∈ Finset.range (i + 1 + 1), costSum (inMonth cP (ym + j)) := by
        rw [Finset.sum_range_succ' (fun k => costSum (inMonth cP (ym + k))) (i + 1)]
        rw [Finset.sum_congr rfl
          (fun j _ => by rw [show ym + 1 + j = ym + (j + 1) from by omega])]
        simp only [Nat.add_zero]
        ring
      rw [e1, e2]

theorem inMonth_filter (cat : Posting → Bool) (ps : List Posting) (m : Nat) :
    inMonth (ps.filter cat) m = ps.filter (fun p => cat p && (p.date.ym == m)) := by
  rw [inMonth, List.filter_filter]
  exact List.filter_congr (fun a _ => Bool.and_comm _ _)

end Paisa.CashFlow

/-- C8: every record of the cash-flow window — month `i` counted from the
first posting's month — satisfies the per-category formulas: income is
minus the month's `Income:*` sum, expenses the month's `Expenses:*` sum
excluding the `Expenses:Tax` subtree, tax the `Expenses:Tax` subtree sum,
investment the `Assets:*` sum excluding the `Assets:Checking` subtree,
liabilities minus the `Liabilities:*` sum, checking the `Assets:Checking`
subtree sum, and balance the seed plus the running sum of checking over
the months up to and including this one; for the current cash flow the
seed is the checking balance accumulated strictly before the window start
(three months back). -/
theorem C8_cash_flow_month_formulas :
    (∀ (ps : List Paisa.CashFlow.Posting) (bal0 : Rat) (eot : Paisa.CashFlow.Date)
        (i : Nat) (cf : Paisa.CashFlow.Record) (p0 : Paisa.CashFlow.Posting),
        ps.head? = some p0 →
        (Paisa.CashFlow.computeCashFlow ps bal0 eot)[i]? = some cf →
        cf.date = ⟨p0.date.ym + i, 2⟩ ∧
        cf.income = -(Paisa.CashFlow.costSum (ps.filter
          (fun p => "Income:".isPrefixOf p.account &&
            (p.date.ym == p0.date.ym + i)))) ∧
        cf.expenses = Paisa.CashFlow.costSum (ps.filter
          (fun p => ("Expenses:".isPrefixOf p.account &&
              !Paisa.isSameOrParent p.account "Expenses:Tax") &&
            (p.date.ym == p0.date.ym + i))) ∧
        cf.tax = Paisa.CashFlow.costSum (ps.filter
          (fun p => Paisa.isSameOrParent p.account "Expenses:Tax" &&
            (p.date.ym == p0.date.ym + i))) ∧
        cf.investment = Paisa.CashFlow.costSum (ps.filter
          (fun p => ("Assets:".isPrefixOf p.account &&
              !Paisa.isSameOrParent p.account "Assets:Checking") &&
            (p.date.ym == p0.date.ym + i))) ∧
        cf.liabilities = -(Paisa.CashFlow.costSum (ps.filter
          (fun p => "Liabilities:".isPrefixOf p.account &&
            (p.date.ym == p0.date.ym + i)))) ∧
        cf.checking = Paisa.CashFlow.costSum (ps.filter
          (fun p => Paisa.isSameOrParent p.account "Assets:Checking" &&
            (p.date.ym == p0.date.ym + i))) ∧
        cf.balance = bal0 + ∑ j ∈ Finset.range (i + 1),
          Paisa.CashFlow.costSum (ps.filter
            (fun p => Paisa.isSameOrParent p.account "Assets:Checking" &&
              (p.date.ym == p0.date.ym + j)))) ∧
    (∀ (allPs : List Paisa.CashFlow.Posting) (ws eot : Paisa.CashFlow.Date)
        (i : Nat) (cf : Paisa.CashFlow.Record) (p0 : Paisa.CashFlow.Posting),
        (allPs.filter (fun p => !p.date.before ws)).head? = some p0 →
        (Paisa.CashFlow.GetCurrentCashFlow allPs ws eot)[i]? = some cf →
        cf.balance = Paisa.CashFlow.costSum (allPs.filter
            (fun p => Paisa.isSameOrParent p.account "Assets:Checking" &&
              p.date.before ws)) +
          ∑ j ∈ Finset.range (i + 1),
            Paisa.CashFlow.costSum ((allPs.filter (fun p => !p.date.before ws)).filter
              (fun p => Paisa.isSameOrParent p.account "Assets:Checking" &&
                (p.date.ym == p0.date.ym + j)))) := by
  have main : ∀ (ps : List Paisa.CashFlow.Posting) (bal0 : Rat)
      (eot : Paisa.CashFlow.Date) (i : Nat) (cf : Paisa.CashFlow.Record)
      (p0 : Paisa.CashFlow.Posting),
      ps.head? = some p0 →
      (Paisa.CashFlow.computeCashFlow ps bal0 eot)[i]? = some cf →
      cf = { date := ⟨p0.date.ym + i, 2⟩
             income := -(Paisa.CashFlow.costSum (Paisa.CashFlow.inMonth
               (ps.filter (fun p => "Income:".isPrefixOf p.account)) (p0.date.ym + i)))
             expenses := Paisa.CashFlow.costSum (Paisa.CashFlow.inMonth
               (ps.filter (fun p => "Expenses:".isPrefixOf p.account &&
                 !Paisa.isSameOrParent p.account "Expenses:Tax")) (p0.date.ym + i))
             liabilities := -(Paisa.CashFlow.costSum (Paisa.CashFlow.inMonth
               (ps.filter (fun p => "Liabilities:".isPrefixOf p.account)) (p0.date.ym + i)))
             investment := Paisa.CashFlow.costSum (Paisa.CashFlow.inMonth
               (ps.filter (fun p => "Assets:".isPrefixOf p.account &&
                 !Paisa.isSameOrParent p.account "Assets:Checking")) (p0.date.ym + i))
             tax := Paisa.CashFlow.costSum (Paisa.CashFlow.inMonth
               (ps.filter (fun p => Paisa.isSameOrParent p.account "Expenses:Tax"))
               (p0.date.ym + i))
             checking := Paisa.CashFlow.costSum (Paisa.CashFlow.inMonth
               (ps.filter (fun p => Paisa.isSameOrParent p.account "Assets:Checking"))
               (p0.date.ym + i))
             balance := bal0 + ∑ j ∈ Finset.range (i + 1),
               Paisa.CashFlow.costSum (Paisa.CashFlow.inMonth
                 (ps.filter (fun p => Paisa.isSameOrParent p.account "Assets:Checking"))
                 (p0.date.ym + j)) } := by
    intro ps bal0 eot i cf p0 hh hg
    match ps, hh with
    | p :: rest, hh =>
      obtain rfl := Option.some.inj hh
      rw [Paisa.CashFlow.computeCashFlow] at hg
      obtain ⟨q, hq⟩ : ∃ q, (p :: rest).getLast? = some q :=
        Option.isSome_iff_exists.mp (by simp)
      rw [show (p :: rest).head? = some p from rfl, hq] at hg
      exact Paisa.CashFlow.loop_getElem? _ _ _ _ _ _ _ _ _ _ _ hg
  constructor
  · intro ps bal0 eot i cf p0 hh hg
    have h := main ps bal0 eot i cf p0 hh hg
    subst h
    refine ⟨rfl, ?_, ?_, ?_, ?_, ?_, ?_, ?_⟩ <;>
      simp only [Paisa.CashFlow.inMonth_filter]
  · intro allPs ws eot i cf p0 hh hg
    have h := main _ _ _ i cf p0 hh hg
    subst h
    simp only [Paisa.CashFlow.inMonth_filter]

/-- Witness for C8: month 0 of the two-posting cash flow has
income 100, checking 100 and balance 100. -/
theorem C8_cash_flow_month_formulas_witness :
    (Paisa.CashFlow.computeCashFlow Paisa.Examples.cfPs 0 ⟨1, 3⟩)[0]? =
        some ⟨⟨0, 2⟩, 100, 0, 0, 0, 0, 100, 100⟩ ∧
    ((⟨⟨0, 2⟩, 100, 0, 0, 0, 0, 100, 100⟩ : Paisa.CashFlow.Record).date = ⟨0 + 0, 2⟩ ∧
      (⟨⟨0, 2⟩, 100, 0, 0, 0, 0, 100, 100⟩ : Paisa.CashFlow.Record).income =
        -(Paisa.CashFlow.costSum (Paisa.Examples.cfPs.filter
          (fun p => "Income:".isPrefixOf p.account && (p.date.ym == 0 + 0))))) :=
  have hh : Paisa.Examples.cfPs.head? = some ⟨"Income:Salary", ⟨0, 2⟩, -100⟩ := rfl
  have hg : (Paisa.CashFlow.computeCashFlow Paisa.Examples.cfPs 0 ⟨1, 3⟩)[0]? =
      some ⟨⟨0, 2⟩, 100, 0, 0, 0, 0, 100, 100⟩ := by with_unfolding_all decide
  have h := C8_cash_flow_month_formulas.1 Paisa.Examples.cfPs 0 ⟨1, 3⟩ 0
    ⟨⟨0, 2⟩, 100, 0, 0, 0, 0, 100, 100⟩ ⟨"Income:Salary", ⟨0, 2⟩, -100⟩ hh hg
  ⟨hg, h.1, h.2.1⟩

namespace Paisa.Networth

theorem go_length_le (ctx : Ctx) (flag : Bool) :
    ∀ (n start : Nat) (ps : List Posting) (acc : AccMap),
      (go ctx flag n start ps acc).length ≤ n := by
  intro n
  induction n with
  | zero => intro start ps acc; rw [go]; exact Nat.le_refl 0
  | succ n ih =>
    intro start ps acc
    rw [go]
    split
    · simp
    · simpa using ih (start + 1) _ _

theorem go_date (ctx : Ctx) (flag : Bool) :
    ∀ (n start : Nat) (ps : List Posting) (acc : AccMap) (i : Nat)
      (e : Record × List Posting),
      (go ctx flag n start ps acc)[i]? = some e → e.1.date = start + i := by
  intro n
  induction n with
  | zero => intro start ps acc i e h; rw [go] at h; cases h
  | succ n ih =>
    intro start ps acc i e h
    rw [go] at h
    by_cases hc : (consume ctx start ps acc).2 = [] ∧
        |(aggregate ctx flag start (consume ctx start ps acc).1).2.2.1| < 1/100
    · rw [if_pos hc] at h
      cases i with
      | zero =>
        rw [List.getElem?_cons_zero] at h
        obtain rfl := Option.some.inj h
        rfl
      | succ i => rw [List.getElem?_cons_succ] at h; cases h
    · rw [if_neg hc] at h
      cases i with
      | zero =>
        rw [List.getElem?_cons_zero] at h
        obtain rfl := Option.some.inj h
        rfl
      | succ i =>
        rw [List.getElem?_cons_succ] at h
        have := ih (start + 1) _ _ i e h
        omega

theorem go_stop_forward (ctx : Ctx) (flag : Bool) :
    ∀ (n start : Nat) (ps : List Posting) (acc : AccMap),
      (go ctx flag n start ps acc).length < n →
      ∃ e, (go ctx flag n start ps acc).getLast? = some e ∧
        e.2 = [] ∧ |e.1.balanceAmount| < 1/100 := by
  intro n
  induction n with
  | zero => intro start ps acc h; rw [go] at h; cases h
  | succ n ih =>
    intro start ps acc h
    rw [go] at h ⊢
    by_cases hc : (consume ctx start ps acc).2 = [] ∧
        |(aggregate ctx flag start (consume ctx start ps acc).1).2.2.1| < 1/100
    · rw [if_pos hc]
      exact ⟨_, rfl, hc.1, hc.2⟩
    · rw [if_neg hc] at h ⊢
      rw [List.length_cons] at h
      have hlt : (go ctx flag n (start + 1) (consume ctx start ps acc).2
          (consume ctx start ps acc).1).length < n := by omega
      obtain ⟨e, he, h1, h2⟩ := ih (start + 1) _ _ hlt
      refine ⟨e, ?_, h1, h2⟩
      cases hgo : go ctx flag n (start + 1) (consume ctx start ps acc).2
          (consume ctx start ps acc).1 with
      | nil => rw [hgo] at he; cases he
      | cons y t =>
        rw [hgo] at he
        rw [List.getLast?_cons_cons]
        exact he

theorem go_no_early_stop (ctx : Ctx) (flag : Bool) :
    ∀ (n start : Nat) (ps : List Posting) (acc : AccMap) (i : Nat)
      (e : Record × List Posting),
      (go ctx flag n start ps acc)[i]? = some e →
      i + 1 < (go ctx flag n start ps acc).length →
      ¬(e.2 = [] ∧ |e.1.balanceAmount| < 1/100) := by
  intro n
  induction n with
  | zero => intro start ps acc i e h _; rw [go] at h; cases h
  | succ n ih =>
    intro start ps acc i e h hlen
    rw [go] at h hlen
    by_cases hc : (consume ctx start ps acc).2 = [] ∧
        |(aggregate ctx flag start (consume ctx start ps acc).1).2.2.1| < 1/100
    · rw [if_pos hc] at hlen
      rw [List.length_singleton] at hlen
      omega
    · rw [if_neg hc] at h hlen
      cases i with
      | zero =>
        rw [List.getElem?_cons_zero] at h
        obtain rfl := Option.some.inj h
        exact hc
      | succ i =>
        rw [List.getElem?_cons_succ] at h
        rw [List.length_cons] at hlen
        exact ih (start + 1) _ _ i e h (by omega)

theorem go_cut_after_exit (ctx : Ctx) (flag : Bool) (n start : Nat) (ps : List Posting)
    (acc : AccMap) (i : Nat) (e : Record × List Posting)
    (h : (go ctx flag n start ps acc)[i]? = some e) (h1 : e.2 = [])
    (h2 : |e.1.balanceAmount| < 1/100) :
    (go ctx flag n start ps acc).length = i + 1 := by
  have hi : i < (go ctx flag n start ps acc).length := by
    by_contra hge
    rw [List.getElem?_eq_none (by omega)] at h
    cases h
  by_contra hne
  exact go_no_early_stop ctx flag n start ps acc i e h (by omega) ⟨h1, h2⟩

end Paisa.Networth

/-- C9: the daily net-worth loop is a total function of its inputs (it is
defined by recursion on the remaining day count `n = end − start`, so it
always terminates and emits at most `end − start` records);
`computeNetworthTimeline` is its record projection started at the first
posting's date; record `i` is dated `start + i` (one record per day);
whenever the loop stops short of end-of-today (`length < n`), the last
emitted record has consumed all postings and has balance magnitude below
0.01; no earlier record satisfies that cut (the loop stops exactly at the
first day it holds); and in particular once a record has no postings left
and balance magnitude below 0.01, it is the last one — no further daily
records are emitted. -/
theorem C9_networth_timeline_termination :
    (∀ (ctx : Paisa.Networth.Ctx) (flag : Bool) (endDate : Nat)
        (ps : List Paisa.Networth.Posting) (p0 : Paisa.Networth.Posting),
        ps.head? = some p0 →
        Paisa.Networth.computeNetworthTimeline ctx flag endDate ps =
          (Paisa.Networth.go ctx flag (endDate - p0.date) p0.date ps []).map Prod.fst) ∧
    (∀ (ctx : Paisa.Networth.Ctx) (flag : Bool) (n start : Nat)
        (ps : List Paisa.Networth.Posting) (acc : Paisa.Networth.AccMap),
        (Paisa.Networth.go ctx flag n start ps acc).length ≤ n) ∧
    (∀ (ctx : Paisa.Networth.Ctx) (flag : Bool) (n start : Nat)
        (ps : List Paisa.Networth.Posting) (acc : Paisa.Networth.AccMap) (i : Nat)
        (e : Paisa.Networth.Record × List Paisa.Networth.Posting),
        (Paisa.Networth.go ctx flag n start ps acc)[i]? = some e →
        e.1.date = start + i) ∧
    (∀ (ctx : Paisa.Networth.Ctx) (flag : Bool) (n start : Nat)
        (ps : List Paisa.Networth.Posting) (acc : Paisa.Networth.AccMap),
        (Paisa.Networth.go ctx flag n start ps acc).length < n →
        ∃ e, (Paisa.Networth.go ctx flag n start ps acc).getLast? = some e ∧
          e.2 = [] ∧ |e.1.balanceAmount| < 1/100) ∧
    (∀ (ctx : Paisa.Networth.Ctx) (flag : Bool) (n start : Nat)
        (ps : List Paisa.Networth.Posting) (acc : Paisa.Networth.AccMap) (i : Nat)
        (e : Paisa.Networth.Record × List Paisa.Networth.Posting),
        (Paisa.Networth.go ctx flag n start ps acc)[i]? = some e →
        i + 1 < (Paisa.Networth.go ctx flag n start ps acc).length →
        ¬(e.2 = [] ∧ |e.1.balanceAmount| < 1/100)) ∧
    (∀ (ctx : Paisa.Networth.Ctx) (flag : Bool) (n start : Nat)
        (ps : List Paisa.Networth.Posting) (acc : Paisa.Networth.AccMap) (i : Nat)
        (e : Paisa.Networth.Record × List Paisa.Networth.Posting),
        (Paisa.Networth.go ctx flag n start ps acc)[i]? = some e →
        e.2 = [] → |e.1.balanceAmount| < 1/100 →
        (Paisa.Networth.go ctx flag n start ps acc).length = i + 1) := by
  refine ⟨?_, ?_, ?_, ?_, ?_, ?_⟩
  · intro ctx flag endDate ps p0 hh
    match ps, hh with
    | p :: rest, hh =>
      obtain rfl := Option.some.inj hh
      rfl
  · intro ctx flag n start ps acc
    exact Paisa.Networth.go_length_le ctx flag n start ps acc
  · intro ctx flag n start ps acc i e h
    exact Paisa.Networth.go_date ctx flag n start ps acc i e h
  · intro ctx flag n start ps acc h
    exact Paisa.Networth.go_stop_forward ctx flag n start ps acc h
  · intro ctx flag n start ps acc i e h hlen
    exact Paisa.Networth.go_no_early_stop ctx flag n start ps acc i e h hlen
  · intro ctx flag n start ps acc i e h h1 h2
    exact Paisa.Networth.go_cut_after_exit ctx flag n start ps acc i e h h1 h2

/-- Witness for C9: with a single posting of amount 1 the three-day loop
emits a record dated day 0, and with the single posting of amount 1/200
(below the 0.01 cut once consumed) the loop emits exactly one record. -/
theorem C9_networth_timeline_termination_witness :
    Paisa.Networth.computeNetworthTimeline Paisa.Examples.nwCtx false 3
        [Paisa.Examples.nwPosting] =
      (Paisa.Networth.go Paisa.Examples.nwCtx false 3 0 [Paisa.Examples.nwPosting] []).map
        Prod.fst ∧
    (⟨⟨0, 1, 0, 0, 1, 0, 1⟩, []⟩ :
        Paisa.Networth.Record × List Paisa.Networth.Posting).1.date = 0 + 0 ∧
    (Paisa.Networth.go Paisa.Examples.nwCtx false 3 0 [Paisa.Examples.nwTiny] []).length =
      0 + 1 :=
  have hh : [Paisa.Examples.nwPosting].head? = some Paisa.Examples.nwPosting := rfl
  have hg : (Paisa.Networth.go Paisa.Examples.nwCtx false 3 0
      [Paisa.Examples.nwPosting] [])[0]? = some ⟨⟨0, 1, 0, 0, 1, 0, 1⟩, []⟩ := by
    with_unfolding_all decide
  have hg2 : (Paisa.Networth.go Paisa.Examples.nwCtx false 3 0
      [Paisa.Examples.nwTiny] [])[0]? =
      some ⟨⟨0, 1/200, 0, 0, 1/200, 0, 1/200⟩, []⟩ := by
    with_unfolding_all decide
  ⟨C9_networth_timeline_termination.1 Paisa.Examples.nwCtx false 3 [Paisa.Examples.nwPosting]
      Paisa.Examples.nwPosting hh,
    C9_networth_timeline_termination.2.2.1 Paisa.Examples.nwCtx false 3 0
      [Paisa.Examples.nwPosting] [] 0 ⟨⟨0, 1, 0, 0, 1, 0, 1⟩, []⟩ hg,
    C9_networth_timeline_termination.2.2.2.2.2 Paisa.Examples.nwCtx false 3 0
      [Paisa.Examples.nwTiny] [] 0 ⟨⟨0, 1/200, 0, 0, 1/200, 0, 1/200⟩, []⟩ hg2 rfl
      (by with_unfolding_all decide)⟩

namespace Paisa.Budget

theorem uniqFirst_mem : ∀ (l seen : List String) (x : String),
    x ∈ uniqFirst seen l ↔ (x ∈ l ∧ x ∉ seen) := by
  intro l
  induction l with
  | nil => intro seen x; simp [uniqFirst]
  | cons a rest ih =>
    intro seen x
    rw [uniqFirst]
    split
    · rename_i ha
      rw [ih]
      constructor
      · rintro ⟨h1, h2⟩; exact ⟨List.mem_cons_of_mem a h1, h2⟩
      · rintro ⟨h1, h2⟩
        rcases List.mem_cons.mp h1 with rfl | h1
        · exact absurd ha h2
        · exact ⟨h1, h2⟩
    · rename_i ha
      constructor
      · intro h
        rcases List.mem_cons.mp h with rfl | h
        · exact ⟨List.mem_cons_self _ _, ha⟩
        · obtain ⟨h1, h2⟩ := (ih (a :: seen) x).mp h
          exact ⟨List.mem_cons_of_mem a h1,
            fun hx => h2 (List.mem_cons_of_mem a hx)⟩
      · rintro ⟨h1, h2⟩
        rcases List.mem_cons.mp h1 with rfl | h1
        · exact List.mem_cons_self _ _
        · by_cases hxa : x = a
          · subst hxa; exact List.mem_cons_self _ _
          · exact List.mem_cons_of_mem _ ((ih (a :: seen) x).mpr
              ⟨h1, fun hx => (List.mem_cons.mp hx).elim hxa h2⟩)

theorem uniqFirst_nodup : ∀ (l seen : List String), (uniqFirst seen l).Nodup := by
  intro l
  induction l with
  | nil => intro seen; exact List.nodup_nil
  | cons a rest ih =>
    intro seen
    rw [uniqFirst]
    split
    · exact ih seen
    · refine List.nodup_cons.mpr ⟨?_, ih (a :: seen)⟩
      intro hmem
      exact ((uniqFirst_mem rest (a :: seen) a).mp hmem).2 (List.mem_cons_self _ _)

theorem insertStr_perm (a : String) :
    ∀ (l : List String), List.Perm (insertStr a l) (a :: l) := by
  intro l
  induction l with
  | nil => exact List.Perm.refl _
  | cons b rest ih =>
    rw [insertStr]
    split
    · exact List.Perm.refl _
    · exact (List.Perm.cons b ih).trans (List.Perm.swap a b rest)

theorem sortStrings_perm : ∀ (l : List String), List.Perm (sortStrings l) l := by
  intro l
  induction l with
  | nil => exact List.Perm.refl _
  | cons a rest ih =>
    rw [sortStrings]
    exact (insertStr_perm a (sortStrings rest)).trans (List.Perm.cons a ih)

theorem accountsOf_nodup (fps : List Posting) : (accountsOf fps).Nodup :=
  ((sortStrings_perm _).nodup_iff).mpr (uniqFirst_nodup _ [])

theorem if_pos_eq_max (v : Rat) : (if 0 < v then v else 0) = max 0 v := by
  rcases le_or_lt v 0 with h | h
  · rw [if_neg (not_lt.mpr h), max_eq_left h]
  · rw [if_pos h, max_eq_right (le_of_lt h)]

end Paisa.Budget

namespace Paisa.Budget

theorem accountsLoop_get (roll : Bool) (month : Nat) (past hasEx : Bool)
    (fba : List (String × List Posting)) :
    ∀ (accs : List String) (pool : List (String × List Posting)) (bal : String → Rat)
      (j : Nat) (b : AccountBudget),
      accs.Nodup →
      (accountsLoop roll month past hasEx fba accs pool bal).1[j]? = some b →
      ∃ a, accs[j]? = some a ∧ b.account = a ∧ b.month = month ∧
        b.rollover = (if roll then bal a else 0) ∧
        b.available = (if roll then bal a + (b.forecast - b.actual)
          else if past then 0 else b.forecast - b.actual) := by
  intro accs
  induction accs with
  | nil => intro pool bal j b _ h; cases h
  | cons a0 rest ih =>
    intro pool bal j b hnd h
    simp only [accountsLoop] at h
    cases j with
    | zero =>
      rw [List.getElem?_cons_zero] at h
      obtain rfl := Option.some.inj h
      refine ⟨a0, List.getElem?_cons_zero, rfl, rfl, ?_, ?_⟩ <;> simp [buildBudget]
    | succ j =>
      rw [List.getElem?_cons_succ] at h
      obtain ⟨a, ha, hacc, hm, hro, hav⟩ := ih _ _ j b (List.nodup_cons.mp hnd).2 h
      have hne : a ≠ a0 := by
        intro hcontra
        subst hcontra
        exact (List.nodup_cons.mp hnd).1 (List.getElem?_mem ha)
      refine ⟨a, by rw [List.getElem?_cons_succ]; exact ha, hacc, hm, ?_, ?_⟩
      · rw [hro, if_neg hne]
      · rw [hav, if_neg hne]

theorem accountsLoop_bal_not_mem (roll : Bool) (month : Nat) (past hasEx : Bool)
    (fba : List (String × List Posting)) :
    ∀ (accs : List String) (pool : List (String × List Posting)) (bal : String → Rat)
      (x : String), x ∉ accs →
      (accountsLoop roll month past hasEx fba accs pool bal).2 x = bal x := by
  intro accs
  induction accs with
  | nil => intro pool bal x _; rfl
  | cons a0 rest ih =>
    intro pool bal x hx
    simp only [accountsLoop]
    rw [ih _ _ x (fun hm => hx (List.mem_cons_of_mem a0 hm))]
    have hne : x ≠ a0 := fun hcontra => hx (by rw [hcontra]; exact List.mem_cons_self a0 rest)
    rw [if_neg hne]

theorem accountsLoop_bal_get (roll : Bool) (month : Nat) (past hasEx : Bool)
    (fba : List (String × List Posting)) :
    ∀ (accs : List String) (pool : List (String × List Posting)) (bal : String → Rat)
      (j : Nat) (a : String),
      accs.Nodup → accs[j]? = some a →
      ∃ b, (accountsLoop roll month past hasEx fba accs pool bal).1[j]? = some b ∧
        (accountsLoop roll month past hasEx fba accs pool bal).2 a =
          (if 0 < b.available then b.available else 0) := by
  intro accs
  induction accs with
  | nil => intro pool bal j a _ h; cases h
  | cons a0 rest ih =>
    intro pool bal j a hnd h
    cases j with
    | zero =>
      rw [List.getElem?_cons_zero] at h
      obtain rfl := Option.some.inj h
      refine ⟨_, by simp only [accountsLoop]; rw [List.getElem?_cons_zero], ?_⟩
      simp only [accountsLoop]
      rw [accountsLoop_bal_not_mem roll month past hasEx fba rest _ _ a0
        (List.nodup_cons.mp hnd).1]
      rw [if_pos rfl]
    | succ j =>
      rw [List.getElem?_cons_succ] at h
      obtain ⟨b, hb, hbal⟩ := ih _ _ j a (List.nodup_cons.mp hnd).2 h
      refine ⟨b, ?_, ?_⟩
      · simp only [accountsLoop]
        rw [List.getElem?_cons_succ]
        exact hb
      · simp only [accountsLoop]
        exact hbal

end Paisa.Budget

namespace Paisa.Budget

theorem monthsLoop_zero (roll : Bool) (nowM : Nat) (accounts : List String)
    (fps eps : List Posting) (months : List Nat) (bal : String → Rat) (avail : Rat)
    (m : Nat) (A : MonthBudget)
    (h : (monthsLoop roll nowM accounts fps eps months bal avail)[0]? = some (m, A)) :
    A.month = m ∧
    A.accounts = (accountsLoop roll m (decide (m < nowM))
      (!(eps.filter (fun p => p.month == m)).isEmpty)
      (groupByAccount (fps.filter (fun p => p.month == m))) accounts
      (groupByAccount (eps.filter (fun p => p.month == m))) bal).1 := by
  match months with
  | [] => cases h
  | m0 :: rest =>
    simp only [monthsLoop] at h
    rw [List.getElem?_cons_zero] at h
    have h2 := Option.some.inj h
    have hfst : m0 = m := congrArg Prod.fst h2
    have hsnd := congrArg Prod.snd h2
    subst hfst
    dsimp only at hsnd
    rw [← hsnd]
    exact ⟨rfl, rfl⟩

theorem monthsLoop_get (roll : Bool) (nowM : Nat) (accounts : List String)
    (fps eps : List Posting) :
    ∀ (months : List Nat) (bal : String → Rat) (avail : Rat) (i m : Nat) (A : MonthBudget),
      (monthsLoop roll nowM accounts fps eps months bal avail)[i]? = some (m, A) →
      A.month = m ∧
      ∃ balI, A.accounts = (accountsLoop roll m (decide (m < nowM))
        (!(eps.filter (fun p => p.month == m)).isEmpty)
        (groupByAccount (fps.filter (fun p => p.month == m))) accounts
        (groupByAccount (eps.filter (fun p => p.month == m))) balI).1 := by
  intro months
  induction months with
  | nil => intro bal avail i m A h; cases h
  | cons m0 rest ih =>
    intro bal avail i m A h
    cases i with
    | zero =>
      obtain ⟨h1, h2⟩ := monthsLoop_zero roll nowM accounts fps eps (m0 :: rest) bal avail m A h
      exact ⟨h1, bal, h2⟩
    | succ i =>
      simp only [monthsLoop] at h
      rw [List.getElem?_cons_succ] at h
      exact ih _ _ i m A h

theorem monthsLoop_consecutive (roll : Bool) (nowM : Nat) (accounts : List String)
    (fps eps : List Posting) :
    ∀ (months : List Nat) (bal : String → Rat) (avail : Rat) (i m m' : Nat)
      (A A' : MonthBudget),
      (monthsLoop roll nowM accounts fps eps months bal avail)[i]? = some (m, A) →
      (monthsLoop roll nowM accounts fps eps months bal avail)[i + 1]? = some (m', A') →
      ∃ balI,
        A.accounts = (accountsLoop roll m (decide (m < nowM))
          (!(eps.filter (fun p => p.month == m)).isEmpty)
          (groupByAccount (fps.filter (fun p => p.month == m))) accounts
          (groupByAccount (eps.filter (fun p => p.month == m))) balI).1 ∧
        A'.accounts = (accountsLoop roll m' (decide (m' < nowM))
          (!(eps.filter (fun p => p.month == m')).isEmpty)
          (groupByAccount (fps.filter (fun p => p.month == m'))) accounts
          (groupByAccount (eps.filter (fun p => p.month == m')))
          ((accountsLoop roll m (decide (m < nowM))
            (!(eps.filter (fun p => p.month == m)).isEmpty)
            (groupByAccount (fps.filter (fun p => p.month == m))) accounts
            (groupByAccount (eps.filter (fun p => p.month == m))) balI).2)).1 := by
  intro months
  induction months with
  | nil => intro bal avail i m m' A A' h1 h2; cases h1
  | cons m0 rest ih =>
    intro bal avail i m m' A A' h1 h2
    cases i with
    | zero =>
      obtain ⟨hm1, hacc1⟩ :=
        monthsLoop_zero roll nowM accounts fps eps (m0 :: rest) bal avail m A h1
      have hm0 : m = m0 := by
        simp only [monthsLoop] at h1
        rw [List.getElem?_cons_zero] at h1
        exact (congrArg Prod.fst (Option.some.inj h1)).symm
      subst hm0
      refine ⟨bal, hacc1, ?_⟩
      simp only [monthsLoop] at h2
      rw [List.getElem?_cons_succ] at h2
      obtain ⟨_, hacc2⟩ :=
        monthsLoop_zero roll nowM accounts fps eps rest _ _ m' A' h2
      exact hacc2
    | succ i =>
      simp only [monthsLoop] at h1 h2
      rw [List.getElem?_cons_succ] at h1 h2
      exact ih _ _ i m m' A A' h1 h2

end Paisa.Budget

/-- C4: in the budget map, each account-budget entry (index `j` in the
month's sorted account list) satisfies: when roll-over is disabled,
`rollover = 0` and `available = 0` for past months, else
`forecast − actual`; and for consecutive months, when roll-over is
enabled, `rollover = max(0, the previous month's available for that
account)` and `available = rollover + forecast − actual`. -/
theorem C4_budget_rollover :
    ∀ (roll : Bool) (nowMonth : Nat) (checkingBalance : Rat)
      (fps eps : List Paisa.Budget.Posting) (i : Nat) (m : Nat)
      (A : Paisa.Budget.MonthBudget) (j : Nat) (b : Paisa.Budget.AccountBudget),
      (Paisa.Budget.computeBudet roll nowMonth checkingBalance fps eps)[i]? =
        some (m, A) →
      A.accounts[j]? = some b →
      (b.month = m ∧
        (roll = false →
          b.rollover = 0 ∧
          b.available = (if b.month < nowMonth then 0 else b.forecast - b.actual))) ∧
      (∀ (m' : Nat) (A' : Paisa.Budget.MonthBudget) (b' : Paisa.Budget.AccountBudget),
        (Paisa.Budget.computeBudet roll nowMonth checkingBalance fps eps)[i + 1]? =
          some (m', A') →
        A'.accounts[j]? = some b' →
        b'.account = b.account ∧
        (roll = true →
          b'.rollover = max 0 b.available ∧
          b'.available = b'.rollover + b'.forecast - b'.actual)) := by
  intro roll nowMonth checkingBalance fps eps i m A j b hA hb
  have hnd := Paisa.Budget.accountsOf_nodup fps
  constructor
  · obtain ⟨hAm, balI, hAacc⟩ := Paisa.Budget.monthsLoop_get roll nowMonth
      (Paisa.Budget.accountsOf fps) fps eps (Paisa.Budget.monthsWindow fps)
      (fun _ => 0) checkingBalance i m A hA
    rw [hAacc] at hb
    obtain ⟨a, ha, hacc, hmonth, hro, hav⟩ := Paisa.Budget.accountsLoop_get roll m
      (decide (m < nowMonth)) _ _ _ _ balI j b hnd hb
    refine ⟨hmonth, ?_⟩
    intro hroll
    subst hroll
    rw [if_neg (by simp)] at hro
    rw [if_neg (by simp)] at hav
    refine ⟨hro, ?_⟩
    rw [hav, hmonth]
    by_cases hp : m < nowMonth
    · rw [if_pos (by simpa using hp), if_pos hp]
    · rw [if_neg (by simpa using hp), if_neg hp]
  · intro m' A' b' hA' hb'
    obtain ⟨balI, hAacc, hA'acc⟩ := Paisa.Budget.monthsLoop_consecutive roll nowMonth
      (Paisa.Budget.accountsOf fps) fps eps (Paisa.Budget.monthsWindow fps)
      (fun _ => 0) checkingBalance i m m' A A' hA hA'
    rw [hAacc] at hb
    rw [hA'acc] at hb'
    obtain ⟨a, ha, hacc, _, _, _⟩ := Paisa.Budget.accountsLoop_get roll m
      (decide (m < nowMonth)) _ _ _ _ balI j b hnd hb
    obtain ⟨a2, ha2, hacc2, _, hro2, hav2⟩ := Paisa.Budget.accountsLoop_get roll m'
      (decide (m' < nowMonth)) _ _ _ _ _ j b' hnd hb'
    obtain rfl : a = a2 := Option.some.inj (ha ▸ ha2)
    refine ⟨by rw [hacc, hacc2], ?_⟩
    intro hroll
    subst hroll
    obtain ⟨b0, hb0, hbal⟩ := Paisa.Budget.accountsLoop_bal_get true m
      (decide (m < nowMonth)) _ _ _ _ balI j a hnd ha
    obtain rfl : b0 = b := Option.some.inj (hb0 ▸ hb)
    rw [if_pos rfl] at hro2 hav2
    rw [hbal, Paisa.Budget.if_pos_eq_max] at hro2
    constructor
    · exact hro2
    · rw [hav2, hbal, Paisa.Budget.if_pos_eq_max, hro2]
      ring

/-- Witness for C4: the spec's rollover scenario — January forecast
10000 / actual 8000 gives available 2000; February rollover 2000,
forecast 10000, actual 12000 gives available 0. -/
theorem C4_budget_rollover_witness :
    ((⟨"Expenses:Food", 10000, 12000, 2000, 0, 1,
        [⟨"Expenses:Food", 1, 12000⟩]⟩ : Paisa.Budget.AccountBudget).account =
      (⟨"Expenses:Food", 10000, 8000, 0, 2000, 0,
        [⟨"Expenses:Food", 0, 8000⟩]⟩ : Paisa.Budget.AccountBudget).account) ∧
    ((⟨"Expenses:Food", 10000, 12000, 2000, 0, 1,
        [⟨"Expenses:Food", 1, 12000⟩]⟩ : Paisa.Budget.AccountBudget).rollover =
      max 0 (⟨"Expenses:Food", 10000, 8000, 0, 2000, 0,
        [⟨"Expenses:Food", 0, 8000⟩]⟩ : Paisa.Budget.AccountBudget).available ∧
      (⟨"Expenses:Food", 10000, 12000, 2000, 0, 1,
        [⟨"Expenses:Food", 1, 12000⟩]⟩ : Paisa.Budget.AccountBudget).available =
        (⟨"Expenses:Food", 10000, 12000, 2000, 0, 1,
          [⟨"Expenses:Food", 1, 12000⟩]⟩ : Paisa.Budget.AccountBudget).rollover +
          (⟨"Expenses:Food", 10000, 12000, 2000, 0, 1,
            [⟨"Expenses:Food", 1, 12000⟩]⟩ : Paisa.Budget.AccountBudget).forecast -
          (⟨"Expenses:Food", 10000, 12000, 2000, 0, 1,
            [⟨"Expenses:Food", 1, 12000⟩]⟩ : Paisa.Budget.AccountBudget).actual) :=
  have hA : (Paisa.Budget.computeBudet true 2 0 Paisa.Examples.bgFps4
      Paisa.Examples.bgEps4)[0]? =
      some (0, ⟨0, [⟨"Expenses:Food", 10000, 8000, 0, 2000, 0,
        [⟨"Expenses:Food", 0, 8000⟩]⟩], 2000, -2000, 10000⟩) := by
    with_unfolding_all rfl
  have hA' : (Paisa.Budget.computeBudet true 2 0 Paisa.Examples.bgFps4
      Paisa.Examples.bgEps4)[0 + 1]? =
      some (1, ⟨1, [⟨"Expenses:Food", 10000, 12000, 2000, 0, 1,
        [⟨"Expenses:Food", 1, 12000⟩]⟩], 0, -2000, 10000⟩) := by
    with_unfolding_all rfl
  have h := C4_budget_rollover true 2 0 Paisa.Examples.bgFps4 Paisa.Examples.bgEps4
    0 0 ⟨0, [⟨"Expenses:Food", 10000, 8000, 0, 2000, 0, [⟨"Expenses:Food", 0, 8000⟩]⟩],
      2000, -2000, 10000⟩ 0
    ⟨"Expenses:Food", 10000, 8000, 0, 2000, 0, [⟨"Expenses:Food", 0, 8000⟩]⟩ hA rfl
  have h2 := h.2 1 ⟨1, [⟨"Expenses:Food", 10000, 12000, 2000, 0, 1,
      [⟨"Expenses:Food", 1, 12000⟩]⟩], 0, -2000, 10000⟩
    ⟨"Expenses:Food", 10000, 12000, 2000, 0, 1, [⟨"Expenses:Food", 1, 12000⟩]⟩ hA' rfl
  ⟨h2.1, h2.2 rfl⟩

/-- C5 counterexample: the claim says an actual expense is attributed to
the *most specific* ancestor forecast account.  With forecast accounts
`Expenses:Food` and `Expenses:Food:Restaurant` and an actual expense on
`Expenses:Food:Restaurant`, the claim predicts actuals
`[Food ↦ 0, Restaurant ↦ 30]`; but the accounts are processed in
lexicographically sorted order, in which an ancestor precedes its
descendants, so `Expenses:Food` pops the expense first:
the code computes `[Food ↦ 30, Restaurant ↦ 0]`. -/
theorem C5_attribution_counterexample :
    (Paisa.Budget.computeBudet false 0 0 Paisa.Examples.bgFps5
        Paisa.Examples.bgEps5).map
        (fun e => e.2.accounts.map (fun b => (b.account, b.actual))) =
      [[("Expenses:Food", (30 : Rat)), ("Expenses:Food:Restaurant", 0)]] ∧
    [[("Expenses:Food", (30 : Rat)), ("Expenses:Food:Restaurant", 0)]] ≠
      [[("Expenses:Food", (0 : Rat)), ("Expenses:Food:Restaurant", 30)]] := by
  constructor
  · with_unfolding_all rfl
  · with_unfolding_all decide

namespace Paisa.Budget

theorem popExpenses_mem (a : String) (pool : List (String × List Posting)) (p : Posting) :
    p ∈ (popExpenses a pool).1 ↔
      ∃ entry, entry ∈ pool ∧ isSameOrParent entry.1 a = true ∧ p ∈ entry.2 := by
  constructor
  · intro hp
    obtain ⟨l, hl, hpl⟩ := List.mem_flatten.mp hp
    obtain ⟨e, he, rfl⟩ := List.mem_map.mp hl
    obtain ⟨hepool, hef⟩ := List.mem_filter.mp he
    exact ⟨e, hepool, hef, hpl⟩
  · rintro ⟨e, hepool, hef, hpe⟩
    exact List.mem_flatten.mpr
      ⟨e.2, List.mem_map.mpr ⟨e, List.mem_filter.mpr ⟨hepool, hef⟩, rfl⟩, hpe⟩

theorem accountsLoop_expenses_mem (roll : Bool) (month : Nat) (past hasEx : Bool)
    (fba : List (String × List Posting)) :
    ∀ (accs : List String) (pool : List (String × List Posting)) (bal : String → Rat)
      (j : Nat) (b : AccountBudget) (p : Posting),
      (accountsLoop roll month past hasEx fba accs pool bal).1[j]? = some b →
      (p ∈ b.expenses ↔ (hasEx = true ∧ ∃ a, accs[j]? = some a ∧
        ∃ entry, entry ∈ pool ∧ p ∈ entry.2 ∧ isSameOrParent entry.1 a = true ∧
          ∀ (k : Nat) (a' : String), k < j → accs[k]? = some a' →
            isSameOrParent entry.1 a' = false)) := by
  intro accs
  induction accs with
  | nil => intro pool bal j b p h; cases h
  | cons a0 rest ih =>
    intro pool bal j b p h
    simp only [accountsLoop] at h
    cases j with
    | zero =>
      rw [List.getElem?_cons_zero] at h
      obtain rfl := Option.some.inj h
      show p ∈ (if hasEx = true then (popExpenses a0 pool).1 else []) ↔ _
      cases hasEx with
      | false => simp
      | true =>
        rw [if_pos rfl, popExpenses_mem]
        constructor
        · rintro ⟨e, hepool, hm, hpe⟩
          exact ⟨rfl, a0, List.getElem?_cons_zero, e, hepool, hpe, hm,
            fun k a' hk _ => absurd hk (Nat.not_lt_zero k)⟩
        · rintro ⟨-, a, ha, e, hepool, hpe, hm, -⟩
          rw [List.getElem?_cons_zero] at ha
          obtain rfl := Option.some.inj ha
          exact ⟨e, hepool, hm, hpe⟩
    | succ j =>
      rw [List.getElem?_cons_succ] at h
      rw [ih _ _ j b p h]
      constructor
      · rintro ⟨hx, a, ha, e, hmem, hpe, hm, hcond⟩
        refine ⟨hx, a, by rw [List.getElem?_cons_succ]; exact ha, e,
          (List.mem_filter.mp hmem).1, hpe, hm, ?_⟩
        intro k a' hk hka
        cases k with
        | zero =>
          rw [List.getElem?_cons_zero] at hka
          obtain rfl := Option.some.inj hka
          have hf := (List.mem_filter.mp hmem).2
          simpa using hf
        | succ k =>
          rw [List.getElem?_cons_succ] at hka
          exact hcond k a' (by omega) hka
      · rintro ⟨hx, a, ha, e, hmem, hpe, hm, hcond⟩
        rw [List.getElem?_cons_succ] at ha
        refine ⟨hx, a, ha, e, ?_, hpe, hm, ?_⟩
        · refine List.mem_filter.mpr ⟨hmem, ?_⟩
          have hz := hcond 0 a0 (Nat.succ_pos j) List.getElem?_cons_zero
          rw [hz]
          rfl
        · intro k a' hk hka
          exact hcond (k + 1) a' (by omega) (by rw [List.getElem?_cons_succ]; exact hka)

theorem groupByAccount_entry_iff (esM : List Posting) (p : Posting) (Q : String → Prop) :
    (∃ entry, entry ∈ groupByAccount esM ∧ p ∈ entry.2 ∧ Q entry.1) ↔
      (p ∈ esM ∧ Q p.account) := by
  constructor
  · rintro ⟨entry, hm, hp, hq⟩
    obtain ⟨a, ha, rfl⟩ := List.mem_map.mp hm
    obtain ⟨hpes, hacc⟩ := List.mem_filter.mp hp
    have heq : p.account = a := by simpa using hacc
    rw [← heq] at hq
    exact ⟨hpes, hq⟩
  · rintro ⟨hp, hq⟩
    refine ⟨(p.account, esM.filter (fun q => q.account == p.account)), ?_, ?_, hq⟩
    · refine List.mem_map.mpr ⟨p.account, ?_, rfl⟩
      rw [uniqFirst_mem]
      exact ⟨List.mem_map.mpr ⟨p, hp, rfl⟩, List.not_mem_nil _⟩
    · exact List.mem_filter.mpr ⟨hp, by simp⟩

theorem computeBudet_expenses_iff (roll : Bool) (nowMonth : Nat) (checkingBalance : Rat)
    (fps eps : List Posting) (i m : Nat) (A : MonthBudget) (j : Nat)
    (b : AccountBudget) (p : Posting)
    (hA : (computeBudet roll nowMonth checkingBalance fps eps)[i]? = some (m, A))
    (hb : A.accounts[j]? = some b) :
    p ∈ b.expenses ↔
      (p ∈ eps ∧ p.month = m ∧ ∃ a, (accountsOf fps)[j]? = some a ∧
        isSameOrParent p.account a = true ∧
        ∀ (k : Nat) (a' : String), k < j → (accountsOf fps)[k]? = some a' →
          isSameOrParent p.account a' = false) := by
  obtain ⟨hAm, balI, hAacc⟩ := monthsLoop_get roll nowMonth (accountsOf fps) fps eps
    (monthsWindow fps) (fun _ => 0) checkingBalance i m A hA
  rw [hAacc] at hb
  rw [accountsLoop_expenses_mem roll m (decide (m < nowMonth)) _ _ _ _ _ j b p hb]
  constructor
  · rintro ⟨hx, a, ha, hrest⟩
    have := (groupByAccount_entry_iff (eps.filter (fun q => q.month == m)) p
      (fun x => isSameOrParent x a = true ∧
        ∀ (k : Nat) (a' : String), k < j → (accountsOf fps)[k]? = some a' →
          isSameOrParent x a' = false)).mp hrest
    obtain ⟨hpes, hc1, hc2⟩ := this
    obtain ⟨hpeps, hpm⟩ := List.mem_filter.mp hpes
    exact ⟨hpeps, by simpa using hpm, a, ha, hc1, hc2⟩
  · rintro ⟨hpeps, hpm, a, ha, hc1, hc2⟩
    have hpes : p ∈ eps.filter (fun q => q.month == m) :=
      List.mem_filter.mpr ⟨hpeps, by simpa using hpm⟩
    have hx : (!(eps.filter (fun q => q.month == m)).isEmpty) = true := by
      cases hemp : (eps.filter (fun q => q.month == m)).isEmpty
      · rfl
      · rw [List.isEmpty_iff] at hemp
        rw [hemp] at hpes
        cases hpes
    refine ⟨hx, a, ha, ?_⟩
    exact (groupByAccount_entry_iff (eps.filter (fun q => q.month == m)) p
      (fun x => isSameOrParent x a = true ∧
        ∀ (k : Nat) (a' : String), k < j → (accountsOf fps)[k]? = some a' →
          isSameOrParent x a' = false)).mpr ⟨hpes, hc1, hc2⟩

end Paisa.Budget

/-- C5 (amended): within a month, an actual expense posting `p` lands in
the budget of forecast account index `j` exactly when `p` belongs to that
month and `j` is the *first* index in the lexicographically sorted
forecast-account list whose account is the same as or an ancestor of
`p.account` — the least specific matching forecast account, since in
lexicographic order an ancestor precedes its descendants.  Once consumed
the posting is removed from the pool, so it is attributed to at most one
forecast account in the month (no double counting). -/
theorem C5_expense_attribution_amended :
    ∀ (roll : Bool) (nowMonth : Nat) (checkingBalance : Rat)
      (fps eps : List Paisa.Budget.Posting) (i m : Nat)
      (A : Paisa.Budget.MonthBudget) (j : Nat) (b : Paisa.Budget.AccountBudget)
      (p : Paisa.Budget.Posting),
      (Paisa.Budget.computeBudet roll nowMonth checkingBalance fps eps)[i]? =
        some (m, A) →
      A.accounts[j]? = some b →
      (p ∈ b.expenses ↔
        (p ∈ eps ∧ p.month = m ∧ ∃ a, (Paisa.Budget.accountsOf fps)[j]? = some a ∧
          Paisa.isSameOrParent p.account a = true ∧
          ∀ (k : Nat) (a' : String), k < j →
            (Paisa.Budget.accountsOf fps)[k]? = some a' →
            Paisa.isSameOrParent p.account a' = false)) ∧
      (∀ (j2 : Nat) (b2 : Paisa.Budget.AccountBudget), A.accounts[j2]? = some b2 →
        p ∈ b.expenses → p ∈ b2.expenses → j2 = j) := by
  intro roll nowMonth checkingBalance fps eps i m A j b p hA hb
  refine ⟨Paisa.Budget.computeBudet_expenses_iff roll nowMonth checkingBalance fps eps
    i m A j b p hA hb, ?_⟩
  intro j2 b2 hb2 hpb hpb2
  obtain ⟨-, -, a, ha, hc1, hc2⟩ :=
    (Paisa.Budget.computeBudet_expenses_iff roll nowMonth checkingBalance fps eps
      i m A j b p hA hb).mp hpb
  obtain ⟨-, -, a2, ha2, hc1', hc2'⟩ :=
    (Paisa.Budget.computeBudet_expenses_iff roll nowMonth checkingBalance fps eps
      i m A j2 b2 p hA hb2).mp hpb2
  rcases Nat.lt_trichotomy j2 j with hlt | heq | hgt
  · exact absurd hc1' (by rw [hc2 j2 a2 hlt ha2]; simp)
  · exact heq
  · exact absurd hc1 (by rw [hc2' j a hgt ha]; simp)

/-- Witness for C5 (amended): with forecasts on `Expenses:Food` and
`Expenses:Food:Restaurant` and an actual expense on the child account,
the attribution iff holds for the budget at index 0 (`Expenses:Food`),
which indeed contains the posting. -/
theorem C5_expense_attribution_amended_witness :
    ((⟨"Expenses:Food:Restaurant", 0, 30⟩ : Paisa.Budget.Posting) ∈
        (⟨"Expenses:Food", 100, 30, 0, 70, 0,
          [⟨"Expenses:Food:Restaurant", 0, 30⟩]⟩ :
            Paisa.Budget.AccountBudget).expenses ↔
      ((⟨"Expenses:Food:Restaurant", 0, 30⟩ : Paisa.Budget.Posting) ∈
          Paisa.Examples.bgEps5 ∧
        (⟨"Expenses:Food:Restaurant", 0, 30⟩ : Paisa.Budget.Posting).month = 0 ∧
        ∃ a, (Paisa.Budget.accountsOf Paisa.Examples.bgFps5)[0]? = some a ∧
          Paisa.isSameOrParent
            (⟨"Expenses:Food:Restaurant", 0, 30⟩ : Paisa.Budget.Posting).account a =
              true ∧
          ∀ (k : Nat) (a' : String), k < 0 →
            (Paisa.Budget.accountsOf Paisa.Examples.bgFps5)[k]? = some a' →
            Paisa.isSameOrParent
              (⟨"Expenses:Food:Restaurant", 0, 30⟩ : Paisa.Budget.Posting).account a' =
                false)) ∧
    (∀ (j2 : Nat) (b2 : Paisa.Budget.AccountBudget),
      (⟨0, [⟨"Expenses:Food", 100, 30, 0, 70, 0,
          [⟨"Expenses:Food:Restaurant", 0, 30⟩]⟩,
        ⟨"Expenses:Food:Restaurant", 50, 0, 0, 50, 0, []⟩], 120, -120, 150⟩ :
          Paisa.Budget.MonthBudget).accounts[j2]? = some b2 →
      (⟨"Expenses:Food:Restaurant", 0, 30⟩ : Paisa.Budget.Posting) ∈
        (⟨"Expenses:Food", 100, 30, 0, 70, 0,
          [⟨"Expenses:Food:Restaurant", 0, 30⟩]⟩ :
            Paisa.Budget.AccountBudget).expenses →
      (⟨"Expenses:Food:Restaurant", 0, 30⟩ : Paisa.Budget.Posting) ∈ b2.expenses →
      j2 = 0) :=
  C5_expense_attribution_amended false 0 0 Paisa.Examples.bgFps5 Paisa.Examples.bgEps5
    0 0 ⟨0, [⟨"Expenses:Food", 100, 30, 0, 70, 0, [⟨"Expenses:Food:Restaurant", 0, 30⟩]⟩,
      ⟨"Expenses:Food:Restaurant", 50, 0, 0, 50, 0, []⟩], 120, -120, 150⟩ 0
    ⟨"Expenses:Food", 100, 30, 0, 70, 0, [⟨"Expenses:Food:Restaurant", 0, 30⟩]⟩
    ⟨"Expenses:Food:Restaurant", 0, 30⟩ (by with_unfolding_all rfl) rfl
